import Mathlib

/-!
Verification of the `tenxsqueeze` parameter-sweep orchestrator, result cache and
order/position state machines, shallowly embedded from the Python sources in
`src/tenxsqueeze`.  Python dicts become ordered association lists, pandas
columns become lists of optional rationals (none = NaN/NaT), files become lists
of rows, and the strategy callbacks (`next`, `notify_order`, `notify_trade`)
are ported statement by statement.  Parts supplied by external libraries
(`backtrader`'s broker, `pyutil.unique_file_name`) are modelled from the spec
and marked as such.
-/

namespace TenX

/-- A Python scalar value as it appears in a strategy parameter dict
(`strategy.params._getkwargs()` in `ProgressCerebro.get_id_keys`). -/
inductive PValue where
  | pbool (b : Bool)
  | pint (n : Int)
  | pfloat (q : Rat)
  | pstr (s : String)
  | ptimedelta (seconds : Nat)
  deriving DecidableEq, Repr

/-- Left-pad to two digits, as in Python's `str(datetime.timedelta(...))`. -/
def two (n : Nat) : String := (if n < 10 then "0" else "") ++ toString n

/-- Python `str(datetime.timedelta(seconds=s))` for a nonnegative whole-second
duration: `[D day(s), ]H:MM:SS`. -/
def timedeltaStr (s : Nat) : String :=
  let days := s / 86400
  let rem := s % 86400
  let hms := toString (rem / 3600) ++ ":" ++ two ((rem % 3600) / 60) ++ ":" ++ two (rem % 60)
  if days = 0 then hms
  else toString days ++ (if days = 1 then " day, " else " days, ") ++ hms

/-- Python `str(v)` on parameter values.  `get_id_keys` applies it only to the
`frequency` entry (a `datetime.timedelta`); the other cases are the evident
renderings and are never reached by the theorems below. -/
def pyStr : PValue → String
  | .pbool true => "True"
  | .pbool false => "False"
  | .pint n => toString n
  | .pfloat q => toString q
  | .pstr s => s
  | .ptimedelta s => timedeltaStr s

/-- A Python dict with string keys, in insertion order (keys are unique in any
dict produced by `params._getkwargs()`). -/
abbrev PDict := List (String × PValue)

/-- Python `k in d`. -/
def hasKey (d : PDict) (k : String) : Bool := d.any (fun kv => kv.1 == k)

/-- Python `del d[k]`: `none` models the `KeyError` raised when `k` is absent.
On a dict (unique keys) dropping every entry with key `k` drops exactly the one
entry. -/
def delKey (d : PDict) (k : String) : Option PDict :=
  if hasKey d k then some (d.filter (fun kv => kv.1 != k)) else none

/-- Python `d[k]`, as an `Option`. -/
def getKey (d : PDict) (k : String) : Option PValue :=
  (d.find? (fun kv => kv.1 == k)).map (·.2)

/-- Python `d[k] = f(d[k])` for a key already present: the entry keeps its
position in the insertion order. -/
def mapKey (d : PDict) (k : String) (f : PValue → PValue) : PDict :=
  d.map (fun kv => if kv.1 == k then (kv.1, f kv.2) else kv)

/-- The non-identifying parameter keys deleted by `ProgressCerebro.get_id_keys`
(`ProgressCerebro.py` lines 36-40). -/
def nonIdKeys : List String :=
  ["logging", "progress_bar", "log_file", "save_results", "cache_logs"]

/-- `ProgressCerebro.get_id_keys`: copy the parameter dict, delete the five
non-identifying keys, and replace the `frequency` value by its `str(...)`
serialization.  `none` models the `KeyError` raised when a deleted or read key
is absent. -/
def get_id_keys (d : PDict) : Option PDict := do
  let d ← delKey d "logging"
  let d ← delKey d "progress_bar"
  let d ← delKey d "log_file"
  let d ← delKey d "save_results"
  let d ← delKey d "cache_logs"
  let _ ← getKey d "frequency"
  return mapKey d "frequency" (fun v => .pstr (pyStr v))

/-- The identifying part of a parameter dict: the entries left after removing
the five non-identifying keys, in their original order. -/
def idPart (d : PDict) : PDict :=
  ((((d.filter (fun kv => kv.1 != "logging")).filter
        (fun kv => kv.1 != "progress_bar")).filter
      (fun kv => kv.1 != "log_file")).filter
    (fun kv => kv.1 != "save_results")).filter
  (fun kv => kv.1 != "cache_logs")

/-- All five non-identifying keys are present (true of every `BaseStrategy`
parameter dict: they are declared on the base class). -/
def fiveKeysPresent (d : PDict) : Bool := nonIdKeys.all (hasKey d)

theorem hasKey_filter_ne (d : PDict) (k k' : String) (h : k' ≠ k) :
    hasKey (d.filter (fun kv => kv.1 != k)) k' = hasKey d k' := by
  induction d with
  | nil => rfl
  | cons a t ih =>
    simp only [hasKey] at ih ⊢
    by_cases hak : a.1 = k
    · have hk' : (a.1 == k') = false :=
        beq_eq_false_iff_ne.mpr (by rw [hak]; exact fun hh => h hh.symm)

      simp only [List.filter_cons, hak, hk', ih]
      simp [ih]
      exact fun hh => absurd (hak.symm.trans hh).symm h
    · simp [List.filter_cons, hak, ih]

/-- On a dict containing the five non-identifying keys, `get_id_keys` succeeds
through the deletions and is the frequency-serialization of the identifying
part. -/
theorem get_id_keys_eq_of_fiveKeys (d : PDict) (h : fiveKeysPresent d = true) :
    get_id_keys d =
      (getKey (idPart d) "frequency").map
        (fun _ => mapKey (idPart d) "frequency" (fun v => .pstr (pyStr v))) := by
  simp only [fiveKeysPresent, nonIdKeys, List.all_cons, List.all_nil,
    Bool.and_eq_true, Bool.and_true] at h
  obtain ⟨h1, h2, h3, h4, h5⟩ := h
  have h2a : hasKey (d.filter (fun kv => kv.1 != "logging")) "progress_bar" = true := by
    rw [hasKey_filter_ne _ _ _ (by decide)]; exact h2
  have h3a : hasKey ((d.filter (fun kv => kv.1 != "logging")).filter
      (fun kv => kv.1 != "progress_bar")) "log_file" = true := by
    rw [hasKey_filter_ne _ _ _ (by decide), hasKey_filter_ne _ _ _ (by decide)]; exact h3
  have h4a : hasKey (((d.filter (fun kv => kv.1 != "logging")).filter
      (fun kv => kv.1 != "progress_bar")).filter (fun kv => kv.1 != "log_file"))
      "save_results" = true := by
    rw [hasKey_filter_ne _ _ _ (by decide), hasKey_filter_ne _ _ _ (by decide),
      hasKey_filter_ne _ _ _ (by decide)]; exact h4
  have h5a : hasKey ((((d.filter (fun kv => kv.1 != "logging")).filter
      (fun kv => kv.1 != "progress_bar")).filter
        (fun kv => kv.1 != "log_file")).filter (fun kv => kv.1 != "save_results"))
      "cache_logs" = true := by
    rw [hasKey_filter_ne _ _ _ (by decide), hasKey_filter_ne _ _ _ (by decide),
      hasKey_filter_ne _ _ _ (by decide), hasKey_filter_ne _ _ _ (by decide)]; exact h5
  unfold get_id_keys idPart
  simp only [delKey, bind, Option.bind, h1, h2a, h3a, h4a, h5a, if_true]
  cases getKey ((((d.filter (fun kv => kv.1 != "logging")).filter
      (fun kv => kv.1 != "progress_bar")).filter
        (fun kv => kv.1 != "log_file")).filter (fun kv => kv.1 != "save_results")
          |>.filter (fun kv => kv.1 != "cache_logs")) "frequency" <;> simp

/-- C1: the cache-lookup fingerprint computed by `ProgressCerebro.get_id_keys`
is identical for any two parameter dicts that agree on their identifying
entries (equivalently, differ only in the non-identifying keys `logging`,
`progress_bar`, `log_file`, `save_results`, `cache_logs`): the fingerprint —
the remaining identifying keys with the `frequency` duration serialized as a
string — depends only on the identifying part. -/
theorem fingerprint_depends_only_on_id_keys (d1 d2 : PDict)
    (h1 : fiveKeysPresent d1 = true) (h2 : fiveKeysPresent d2 = true)
    (hid : idPart d1 = idPart d2) :
    get_id_keys d1 = get_id_keys d2 := by
  rw [get_id_keys_eq_of_fiveKeys d1 h1, get_id_keys_eq_of_fiveKeys d2 h2, hid]

/-- A concrete `TenXSqueeze` parameter dict, default values, logging on. -/
def exampleParamsA : PDict :=
  [("logging", .pbool true), ("progress_bar", .pbool false),
   ("log_file", .pstr "log.txt"), ("save_results", .pbool true),
   ("cache_logs", .pbool false), ("squeeze_pro_length", .pint 20),
   ("atr_length", .pint 10), ("adx_length", .pint 14),
   ("tp_trail_percent", .pfloat (mkRat 4 10)), ("sl_trail_percent", .pfloat (mkRat 7 10)),
   ("percent_is_atr", .pbool true), ("tp_atr_multiplier", .pfloat (mkRat 23 10)),
   ("max_trade_duration", .pint 9), ("use_good_momentum", .pbool true),
   ("frequency", .ptimedelta 300)]

/-- The same identifying parameters with every non-identifying entry changed. -/
def exampleParamsB : PDict :=
  [("logging", .pbool false), ("progress_bar", .pbool true),
   ("log_file", .pstr "other.txt"), ("save_results", .pbool false),
   ("cache_logs", .pbool true), ("squeeze_pro_length", .pint 20),
   ("atr_length", .pint 10), ("adx_length", .pint 14),
   ("tp_trail_percent", .pfloat (mkRat 4 10)), ("sl_trail_percent", .pfloat (mkRat 7 10)),
   ("percent_is_atr", .pbool true), ("tp_atr_multiplier", .pfloat (mkRat 23 10)),
   ("max_trade_duration", .pint 9), ("use_good_momentum", .pbool true),
   ("frequency", .ptimedelta 300)]

/-- Witness for C1 at a concrete pair of parameter dicts that differ in all
five non-identifying entries. -/
theorem fingerprint_depends_only_on_id_keys_witness :
    fiveKeysPresent exampleParamsA = true ∧ fiveKeysPresent exampleParamsB = true ∧
    idPart exampleParamsA = idPart exampleParamsB ∧
    get_id_keys exampleParamsA = get_id_keys exampleParamsB :=
  ⟨by decide, by decide, by decide,
    fingerprint_depends_only_on_id_keys exampleParamsA exampleParamsB
      (by decide) (by decide) (by decide)⟩

/-! ### pandas timestamp columns and `util.py` -/

/-- Lifted addition on timestamps; `none` models NaN/NaT and is absorbing. -/
def oadd : Option Rat → Option Rat → Option Rat
  | some a, some b => some (a + b)
  | _, _ => none

/-- Lifted subtraction on timestamps; `none` models NaN/NaT and is absorbing. -/
def osub : Option Rat → Option Rat → Option Rat
  | some a, some b => some (a - b)
  | _, _ => none

/-- The consecutive differences of a column (pandas `Series.diff()` without its
leading NaN entry, which the only consumer, `.median()`, skips anyway). -/
def diffsO : List (Option Rat) → List (Option Rat)
  | a :: b :: rest => osub b a :: diffsO (b :: rest)
  | _ => []

/-- pandas `Series.median()` over a list of non-NaN values: sort, take the
middle element, or the mean of the two middle elements for an even count;
`none` (NaN) when there are no values. -/
def median (l : List Rat) : Option Rat :=
  if l.length = 0 then none
  else
    let s := l.mergeSort (fun a b => a ≤ b)
    if l.length % 2 = 1 then some (s.getD (l.length / 2) 0)
    else some ((s.getD (l.length / 2 - 1) 0 + s.getD (l.length / 2) 0) / 2)

/-- pandas `Series.median()` on a column with NaNs: NaN entries are skipped. -/
def medianO (l : List (Option Rat)) : Option Rat := median (l.filterMap id)

/-- A Python object passed to the `util.py` functions: a pandas DataFrame
(represented by its `open_time` column plus the remaining columns, which the
functions never touch), a pandas Series, or any other object.  Timestamps are
rationals; `none` models NaN/NaT. -/
inductive PdObj where
  | frame (open_time : List (Option Rat)) (rest : List (String × List (Option Rat)))
  | series (vals : List (Option Rat))
  | other (tag : String)
  deriving DecidableEq

/-- `util.fix_dt_for_backtrader` (util.py lines 4-10): shift the `open_time`
column (resp. the Series) forward by the median of its consecutive
differences; `TypeError` on any other input. -/
def fix_dt_for_backtrader : PdObj → Except String PdObj
  | .frame ot rest => .ok (.frame (ot.map (fun x => oadd x (medianO (diffsO ot)))) rest)
  | .series v => .ok (.series (v.map (fun x => oadd x (medianO (diffsO v)))))
  | .other _ => .error "df must be a pandas DataFrame or Series"

/-- `util.undo_backtrader_dt` (util.py lines 13-19): shift the `open_time`
column (resp. the Series) back by the median of its consecutive differences;
`TypeError` on any other input. -/
def undo_backtrader_dt : PdObj → Except String PdObj
  | .frame ot rest => .ok (.frame (ot.map (fun x => osub x (medianO (diffsO ot)))) rest)
  | .series v => .ok (.series (v.map (fun x => osub x (medianO (diffsO v)))))
  | .other _ => .error "df must be a pandas DataFrame or Series"

/-- `undo_backtrader_dt(fix_dt_for_backtrader(x))`. -/
def undo_after_fix (x : PdObj) : Except String PdObj :=
  (fix_dt_for_backtrader x).bind undo_backtrader_dt

/-- A uniformly spaced timestamp column: `n` timestamps starting at `a` with
inter-bar difference `d`, none of them NaT. -/
def arithSeq (a d : Rat) : Nat → List (Option Rat)
  | 0 => []
  | n + 1 => some a :: arithSeq (a + d) d n

theorem diffsO_arithSeq (d : Rat) (n : Nat) : ∀ a : Rat,
    diffsO (arithSeq a d (n + 1)) = List.replicate n (some d) := by
  induction n with
  | zero => intro a; rfl
  | succ n ih =>
    intro a
    show osub (some (a + d)) (some a) :: diffsO (arithSeq (a + d) d (n + 1)) = _
    rw [ih (a + d)]
    simp [osub, List.replicate]

theorem filterMap_id_replicate_some (d : Rat) (n : Nat) :
    List.filterMap id (List.replicate n (some d)) = List.replicate n d := by
  induction n with
  | zero => rfl
  | succ n ih => simp [List.replicate, ih]

theorem mergeSort_replicate (d : Rat) (n : Nat) :
    (List.replicate n d).mergeSort (fun a b => a ≤ b) = List.replicate n d := by
  have hperm := List.mergeSort_perm (List.replicate n d) (fun a b => a ≤ b)
  refine List.eq_replicate_iff.mpr ⟨?_, ?_⟩
  · rw [hperm.length_eq, List.length_replicate]
  · intro b hb
    exact List.eq_of_mem_replicate (hperm.mem_iff.mp hb)

theorem median_replicate (d : Rat) (n : Nat) :
    median (List.replicate (n + 1) d) = some d := by
  unfold median
  rw [mergeSort_replicate]
  have hlen : (List.replicate (n + 1) d).length = n + 1 := List.length_replicate _ _
  rw [hlen]
  have h2 : (n + 1) / 2 < n + 1 := Nat.div_lt_self (Nat.succ_pos n) (by omega)
  by_cases hp : (n + 1) % 2 = 1
  · simp only [hp, if_pos rfl]
    simp [List.getD, List.getElem?_replicate, h2]
  · rw [if_neg (by omega), if_neg hp]
    have h3 : (n + 1) / 2 - 1 < n + 1 := by omega
    simp [List.getD, List.getElem?_replicate, h2, h3]

theorem medianO_arithSeq (a d : Rat) (n : Nat) :
    medianO (diffsO (arithSeq a d (n + 2))) = some d := by
  rw [medianO, diffsO_arithSeq, filterMap_id_replicate_some, median_replicate]

theorem arithSeq_map_oadd (d c : Rat) (n : Nat) : ∀ a : Rat,
    (arithSeq a d n).map (fun x => oadd x (some c)) = arithSeq (a + c) d n := by
  induction n with
  | zero => intro a; rfl
  | succ n ih =>
    intro a
    show (some (a + c) :: (arithSeq (a + d) d n).map (fun x => oadd x (some c))) = _
    rw [ih (a + d)]
    show _ = some (a + c) :: arithSeq (a + c + d) d n
    rw [show a + d + c = a + c + d by ring]

theorem arithSeq_map_osub (d c : Rat) (n : Nat) : ∀ a : Rat,
    (arithSeq a d n).map (fun x => osub x (some c)) = arithSeq (a - c) d n := by
  induction n with
  | zero => intro a; rfl
  | succ n ih =>
    intro a
    show (some (a - c) :: (arithSeq (a + d) d n).map (fun x => osub x (some c))) = _
    rw [ih (a + d)]
    show _ = some (a - c) :: arithSeq (a - c + d) d n
    rw [show a + d - c = a - c + d by ring]

/-- C10: for every DataFrame or Series whose `open_time` column holds at least
two uniformly spaced timestamps, `undo_backtrader_dt (fix_dt_for_backtrader x)`
returns `x` unchanged: the forward shift by the median inter-bar difference is
exactly reversed; and on any non-DataFrame, non-Series input both functions
raise `TypeError`. -/
theorem fix_dt_roundtrip :
    (∀ (a d : Rat) (m : Nat) (rest : List (String × List (Option Rat))),
      undo_after_fix (.frame (arithSeq a d (m + 2)) rest) =
        .ok (.frame (arithSeq a d (m + 2)) rest)) ∧
    (∀ (a d : Rat) (m : Nat),
      undo_after_fix (.series (arithSeq a d (m + 2))) =
        .ok (.series (arithSeq a d (m + 2)))) ∧
    (∀ tag, fix_dt_for_backtrader (.other tag) =
        .error "df must be a pandas DataFrame or Series" ∧
      undo_backtrader_dt (.other tag) =
        .error "df must be a pandas DataFrame or Series") := by
  have key : ∀ (a d : Rat) (m : Nat),
      ((arithSeq a d (m + 2)).map (fun x => oadd x (medianO (diffsO (arithSeq a d (m + 2)))))) =
        arithSeq (a + d) d (m + 2) := by
    intro a d m
    rw [medianO_arithSeq, arithSeq_map_oadd]
  have key2 : ∀ (a d : Rat) (m : Nat),
      ((arithSeq a d (m + 2)).map (fun x => osub x (medianO (diffsO (arithSeq a d (m + 2)))))) =
        arithSeq (a - d) d (m + 2) := by
    intro a d m
    rw [medianO_arithSeq, arithSeq_map_osub]
  refine ⟨?_, ?_, fun tag => ⟨rfl, rfl⟩⟩
  · intro a d m rest
    show (undo_backtrader_dt (.frame ((arithSeq a d (m + 2)).map
      (fun x => oadd x (medianO (diffsO (arithSeq a d (m + 2)))))) rest)) = _
    rw [key]
    show Except.ok (PdObj.frame ((arithSeq (a + d) d (m + 2)).map
      (fun x => osub x (medianO (diffsO (arithSeq (a + d) d (m + 2)))))) rest) = _
    rw [key2]
    rw [show a + d - d = a by ring]
  · intro a d m
    show (undo_backtrader_dt (.series ((arithSeq a d (m + 2)).map
      (fun x => oadd x (medianO (diffsO (arithSeq a d (m + 2)))))))) = _
    rw [key]
    show Except.ok (PdObj.series ((arithSeq (a + d) d (m + 2)).map
      (fun x => osub x (medianO (diffsO (arithSeq (a + d) d (m + 2))))))) = _
    rw [key2]
    rw [show a + d - d = a by ring]

/-! ### `get_result_path` (C9) -/

/-- Rendering of a timestamp value inside the partition path (the `value` part
of Python's `f-string` `key_value`); a stand-in for `str` of a pandas
Timestamp, deterministic and injective on the rationals. -/
def tsRender : Option Rat → String
  | some q => toString q
  | none => "NaT"

/-- `ProgressCerebro.get_result_path` (ProgressCerebro.py lines 44-56): the
partition path is `root/10xsqueeze/results/strategy_<name>/start_<s>/end_<e>`
where `s` is the first entry of the `open_time` column after
`undo_backtrader_dt` (first timestamp minus the median inter-bar difference)
and `e` is the unshifted last entry.  The instrument plays no part and no
parameter value is an input. -/
def get_result_path (root strategy_name : String) (ot : List (Option Rat)) : String :=
  let start := (ot.map (fun x => osub x (medianO (diffsO ot)))).headD none
  let stop := ot.getLastD none
  root ++ "/10xsqueeze" ++ "/results" ++ "/strategy_" ++ strategy_name ++
    "/start_" ++ tsRender start ++ "/end_" ++ tsRender stop

/-- A bar series: timestamps 0, 10, 20, 30 (uniform spacing 10). -/
def pathColA : List (Option Rat) := [some 0, some 10, some 20, some 30]

/-- A bar series with the same first and last timestamp but different
intermediate spacing (median difference 1). -/
def pathColB : List (Option Rat) := [some 0, some 1, some 2, some 30]

/-- A bar series with the same first and last timestamp as `pathColA` and the
same median difference 10, but different interior timestamps. -/
def pathColC : List (Option Rat) := [some 0, some 15, some 20, some 30]

/-- Counterexample to C9 as stated: two input bar series with the same first
and the same last timestamp (and the strategy name held fixed; the instrument
name is not an input of `get_result_path` at all) produce different partition
paths, because the `start` component subtracts the median inter-bar
difference, which depends on the interior timestamps. -/
theorem result_path_not_determined_by_endpoints :
    pathColA.headD none = pathColB.headD none ∧
    pathColA.getLastD none = pathColB.getLastD none ∧
    get_result_path "/root" "TenXSqueeze_V1.0" pathColA ≠
      get_result_path "/root" "TenXSqueeze_V1.0" pathColB := by
  refine ⟨rfl, by with_unfolding_all decide, by with_unfolding_all decide⟩

/-- C9 amended: the partition path is built deterministically from the root,
the strategy name and the `open_time` column alone — specifically from the
first timestamp shifted back by the median inter-bar difference and from the
unshifted last timestamp — and never from parameter values or the instrument
name: any two columns with equal first entry, equal last entry and equal
median difference yield the same path. -/
theorem get_result_path_amended (root name : String) (ot : List (Option Rat)) :
    (get_result_path root name ot =
      root ++ "/10xsqueeze" ++ "/results" ++ "/strategy_" ++ name ++
        "/start_" ++ tsRender (osub (ot.headD none) (medianO (diffsO ot))) ++
        "/end_" ++ tsRender (ot.getLastD none)) ∧
    (∀ ot2 : List (Option Rat), ot.headD none = ot2.headD none →
      ot.getLastD none = ot2.getLastD none →
      medianO (diffsO ot) = medianO (diffsO ot2) →
      get_result_path root name ot = get_result_path root name ot2) := by
  have hhead : ∀ (l : List (Option Rat)) (m : Option Rat),
      (l.map (fun x => osub x m)).headD none = osub (l.headD none) m := by
    intro l m
    cases l with
    | nil => cases m <;> rfl
    | cons a t => rfl
  constructor
  · rw [get_result_path, hhead]
  · intro ot2 hh hl hm
    rw [get_result_path, get_result_path, hhead, hhead, hh, hl, hm]

/-- Witness for the amended C9 at two concretely different bar series sharing
first timestamp, last timestamp and median difference. -/
theorem get_result_path_amended_witness :
    pathColA.headD none = pathColC.headD none ∧
    pathColA.getLastD none = pathColC.getLastD none ∧
    medianO (diffsO pathColA) = medianO (diffsO pathColC) ∧
    get_result_path "/r" "S" pathColA = get_result_path "/r" "S" pathColC :=
  ⟨rfl, by with_unfolding_all decide, by with_unfolding_all decide,
    (get_result_path_amended "/r" "S" pathColA).2 pathColC rfl
      (by with_unfolding_all decide) (by with_unfolding_all decide)⟩

/-! ### The result store: `pre_strategy`, `post_strategy`,
`get_latest_results_file` (C2, C3) -/

/-- A CSV file: its rows, each a list of string cells; row 0 is the header. -/
abbrev CsvFile := List (List String)

/-- A partition directory in `os.listdir` scan order: file name and contents. -/
abbrev Dir := List (String × CsvFile)

/-- The file names of a partition, in scan order. -/
def dirNames (d : Dir) : List String := d.map (·.1)

/-- Read a file of the partition. -/
def lookupFile (d : Dir) (name : String) : Option CsvFile :=
  (d.find? (fun p => p.1 == name)).map (·.2)

/-- `open(name, "a")` followed by writing `rows`: append to the existing file,
or create it (a created file is listed after the existing ones). -/
def writeAppend (d : Dir) (name : String) (rows : List (List String)) : Dir :=
  if d.any (fun p => p.1 == name) then
    d.map (fun p => if p.1 == name then (p.1, p.2 ++ rows) else p)
  else d ++ [(name, rows)]

/-- Python `s.rstrip(".csv")` on a character list: strip trailing characters
drawn from the character set of the argument (not the literal suffix). -/
def rstripCsvChars (cs : List Char) : List Char :=
  (cs.reverse.dropWhile (fun c => (['.', 'c', 's', 'v'].contains c))).reverse

/-- Python `s.split("_")` on a character list. -/
def splitUnderscore : List Char → List (List Char)
  | [] => [[]]
  | c :: rest =>
    let r := splitUnderscore rest
    if c == '_' then [] :: r
    else
      match r with
      | [] => [[c]]
      | h :: t => (c :: h) :: t

/-- Python `int(s)` on a plain digit string; `none` models the `ValueError`
on an empty or non-digit string (signs and whitespace, which `int` would also
accept, never occur in these file names). -/
def digitsToNat? (cs : List Char) : Option Nat :=
  if cs.isEmpty then none
  else if cs.all (fun c => c.isDigit) then
    some (cs.foldl (fun acc c => acc * 10 + (c.toNat - 48)) 0)
  else none

/-- The numeric suffix `get_latest_results_file` assigns to a file name:
`int(k.split("_")[1].rstrip(".csv")) if "_" in k else 0` (lines 61, 78);
`none` models the `ValueError` of `int(...)` on a non-numeric string. -/
def fileNumber (name : String) : Option Nat :=
  if name.data.any (fun c => c == '_') then
    match splitUnderscore name.data with
    | _ :: second :: _ => digitsToNat? (rstripCsvChars second)
    | _ => none
  else some 0

/-- The `existing_files` mapping: every listed name with its numeric suffix
(`none` as soon as one name fails to parse). -/
def fileNumbers : List String → Option (List (String × Nat))
  | [] => some []
  | n :: rest => do
    let v ← fileNumber n
    let ns ← fileNumbers rest
    return (n, v) :: ns

/-- Python `max(iterable, key=...)` scans left to right and keeps the first
entry whose key is strictly largest so far. -/
def maxByValueAux (best : String × Nat) : List (String × Nat) → String × Nat
  | [] => best
  | p :: rest => maxByValueAux (if best.2 < p.2 then p else best) rest

/-- `max(existing_files, key=existing_files.get)`, `none` on an empty dict. -/
def maxByValue : List (String × Nat) → Option (String × Nat)
  | [] => none
  | p :: rest => some (maxByValueAux p rest)

/-- `ProgressCerebro.get_latest_results_file` (lines 58-70): the file name
with the largest numeric suffix, or `results.csv` when the partition is
empty; `none` models the exception raised on an unparsable file name. -/
def get_latest_results_file (d : Dir) : Option String := do
  let nums ← fileNumbers (dirNames d)
  match maxByValue nums with
  | some p => return p.1
  | none => return "results.csv"

/-- The column schema of a result record: the identifying-key names followed
by the metric names (`list(keys.keys()) + list(metrics.keys())`). -/
def schemaOf (keys metrics : List (String × String)) : List String :=
  keys.map (·.1) ++ metrics.map (·.1)

/-- The value row of a result record
(`list(keys.values()) + list(metrics.values())`). -/
def recordRow (keys metrics : List (String × String)) : List String :=
  keys.map (·.2) ++ metrics.map (·.2)

/-- `ProgressCerebro.post_strategy` (lines 94-126) acting on the partition
directory.  CSV cells are strings.  `fresh` is the value returned by
`pyutil.unique_file_name(file_path)` — an external helper, modelled from the
spec: it allocates a new uniquely-named store, so the theorems assume
`fresh ∉ dirNames d`.  `none` models an exception from the suffix parse.
(The header of an existing file is its first row; `post_strategy` itself never
writes a file without one.)

First the header check of lines 108-115, factored out: the file to write and
whether it is new. -/
def rotateTarget (fresh : String) (d : Dir) (schema : List String)
    (file_path : String) : String × Bool :=
  match lookupFile d file_path with
  | some rows =>
    if rows.headD [] = schema then (file_path, d.isEmpty) else (fresh, true)
  | none => (file_path, d.isEmpty)

/-- The whole of `post_strategy`: pick the latest file, rotate on a header
mismatch, append the record (with the header first when the target is new). -/
def post_strategy (save_results : Bool) (fresh : String) (d : Dir)
    (keys metrics : List (String × String)) : Option Dir :=
  if !save_results then some d
  else
    (get_latest_results_file d).map (fun file_path =>
      writeAppend d (rotateTarget fresh d (schemaOf keys metrics) file_path).1
        ((if (rotateTarget fresh d (schemaOf keys metrics) file_path).2
            then [schemaOf keys metrics] else []) ++ [recordRow keys metrics]))

/-- A header column is identifying exactly when its first character is not
uppercase (`col[0].isupper()`; the metric names produced by
`compact_analysis` all start with an uppercase letter). -/
def isKeyCol (c : String) : Bool :=
  match c.data with
  | [] => true
  | ch :: _ => !ch.isUpper

/-- The row-match predicate of `pre_strategy` (lines 82-84):
`pd.Series(keys).equals(row)` over the keys-only columns — the filtered column
names must equal the key names, in order, with equal cell values. -/
def matchRow (header row : List String) (keys : List (String × String)) : Bool :=
  (header.zip row).filter (fun p => isKeyCol p.1) == keys

/-- The first matching full row of one results file, paired with the header
(`df.loc[keys_match].iloc[0]`); `none` when no row matches. -/
def fileHit (f : CsvFile) (keys : List (String × String)) :
    Option (List (String × String)) :=
  match f with
  | [] => none
  | header :: dataRows =>
    (dataRows.find? (fun r => matchRow header r keys)).map (fun r => header.zip r)

/-- `ProgressCerebro.pre_strategy` (lines 72-92): with result saving on, scan
the partition's files in order and return the first matching cached row;
`none` models Python's `return False`. -/
def pre_strategy (save_results : Bool) (d : Dir) (keys : List (String × String)) :
    Option (List (String × String)) :=
  if !save_results then none
  else d.findSome? (fun p => fileHit p.2 keys)

/-- One iteration of the dispatch loop in `ProgressCerebro.runstrategies`
(lines 341-351) together with the `post_strategy` append that ends a
non-cached run (line 433): on a cache hit the cached row is recorded
(`cached_strats.append(cached_row); continue`) and the backtest never runs;
on a miss the abstracted backtest produces the metrics that are appended.
The final component records whether the backtest was invoked. -/
def run_combination (backtest : List (String × String) → List (String × String))
    (save_results : Bool) (fresh : String) (d : Dir) (keys : List (String × String)) :
    Option ((List (String × String)) × Dir × Bool) :=
  match pre_strategy save_results d keys with
  | some row => some (row, d, false)
  | none =>
    (post_strategy save_results fresh d keys (backtest keys)).map
      (fun d2 => (keys ++ backtest keys, d2, true))

theorem findSome?_isSome_iff {α β : Type} (f : α → Option β) (l : List α) :
    (l.findSome? f).isSome ↔ ∃ a ∈ l, (f a).isSome := by
  induction l with
  | nil => simp [List.findSome?]
  | cons a t ih =>
    rw [List.findSome?_cons]
    cases hfa : f a <;> simp [hfa, ih]

theorem maxByValueAux_le (l : List (String × Nat)) : ∀ best : String × Nat,
    best.2 ≤ (maxByValueAux best l).2 ∧ ∀ p ∈ l, p.2 ≤ (maxByValueAux best l).2 := by
  induction l with
  | nil => intro best; exact ⟨le_refl _, by simp⟩
  | cons q rest ih =>
    intro best
    unfold maxByValueAux
    by_cases hlt : best.2 < q.2
    · rw [if_pos hlt]
      refine ⟨le_trans (le_of_lt hlt) (ih q).1, ?_⟩
      intro p hp
      rcases List.mem_cons.mp hp with h | h
      · exact h ▸ (ih q).1
      · exact (ih q).2 p h
    · rw [if_neg hlt]
      refine ⟨(ih best).1, ?_⟩
      intro p hp
      rcases List.mem_cons.mp hp with h | h
      · exact h ▸ le_trans (Nat.le_of_not_lt hlt) (ih best).1
      · exact (ih best).2 p h

theorem maxByValueAux_mem (l : List (String × Nat)) : ∀ best : String × Nat,
    maxByValueAux best l = best ∨ maxByValueAux best l ∈ l := by
  induction l with
  | nil => intro best; exact .inl rfl
  | cons q rest ih =>
    intro best
    unfold maxByValueAux
    by_cases hlt : best.2 < q.2
    · rw [if_pos hlt]
      rcases ih q with h | h
      · exact .inr (List.mem_cons.mpr (.inl h))
      · exact .inr (List.mem_cons.mpr (.inr h))
    · rw [if_neg hlt]
      rcases ih best with h | h
      · exact .inl h
      · exact .inr (List.mem_cons.mpr (.inr h))

theorem fileNumbers_spec (names : List String) : ∀ nums,
    fileNumbers names = some nums →
    nums.map (·.1) = names ∧ ∀ p ∈ nums, fileNumber p.1 = some p.2 := by
  induction names with
  | nil =>
    intro nums h
    simp [fileNumbers] at h
    subst h
    simp
  | cons n rest ih =>
    intro nums h
    cases hv : fileNumber n with
    | none => rw [fileNumbers, hv] at h; simp at h
    | some v =>
      cases hrest : fileNumbers rest with
      | none => rw [fileNumbers, hv, hrest] at h; simp at h
      | some ns =>
        have hn : nums = (n, v) :: ns := by
          rw [fileNumbers, hv, hrest] at h
          simp at h
          exact h.symm
        subst hn
        obtain ⟨h1, h2⟩ := ih ns hrest
        refine ⟨by simp [h1], ?_⟩
        intro p hp
        rcases List.mem_cons.mp hp with h | h
        · rw [h]; exact hv
        · exact h2 p h

theorem lookupFile_mem_isSome (d : Dir) (n : String) (h : n ∈ dirNames d) :
    (lookupFile d n).isSome := by
  have hfind : (d.find? (fun p => p.1 == n)).isSome := by
    rw [List.find?_isSome]
    simp only [dirNames, List.mem_map] at h
    obtain ⟨p, hp, hpn⟩ := h
    exact ⟨p, hp, by simp [hpn]⟩
  simp only [lookupFile]
  cases hf : d.find? (fun p => p.1 == n) with
  | none => rw [hf] at hfind; simp at hfind
  | some p => simp

theorem lookupFile_not_mem (d : Dir) (n : String) (h : n ∉ dirNames d) :
    lookupFile d n = none := by
  rw [lookupFile]
  have : d.find? (fun p => p.1 == n) = none := by
    rw [List.find?_eq_none]
    intro p hp
    simp only [dirNames, List.mem_map] at h
    simp only [beq_iff_eq]
    exact fun hpn => h ⟨p, hp, hpn⟩
  rw [this]
  rfl

theorem anyKey_false_of_not_mem (d : Dir) (n : String) (h : n ∉ dirNames d) :
    d.any (fun p => p.1 == n) = false := by
  rw [List.any_eq_false]
  intro p hp
  simp only [dirNames, List.mem_map] at h
  simp only [beq_iff_eq]
  exact fun hpn => h ⟨p, hp, hpn⟩

theorem writeAppend_fresh (d : Dir) (fresh : String) (rows : List (List String))
    (h : fresh ∉ dirNames d) :
    lookupFile (writeAppend d fresh rows) fresh = some rows ∧
    ∀ n, n ∈ dirNames d → lookupFile (writeAppend d fresh rows) n = lookupFile d n := by
  have hany := anyKey_false_of_not_mem d fresh h
  constructor
  · rw [writeAppend, hany]
    simp only [Bool.false_eq_true, if_false, lookupFile, List.find?_append]
    have hnone : d.find? (fun p => p.1 == fresh) = none := by
      rw [List.find?_eq_none]
      intro p hp
      simp only [dirNames, List.mem_map] at h
      simp only [beq_iff_eq]
      exact fun hpn => h ⟨p, hp, hpn⟩
    rw [hnone]
    simp [List.find?]
  · intro n hn
    rw [writeAppend, hany]
    simp only [Bool.false_eq_true, if_false, lookupFile, List.find?_append]
    have hsome : (d.find? (fun p => p.1 == n)).isSome := by
      rw [List.find?_isSome]
      simp only [dirNames, List.mem_map] at hn
      obtain ⟨p, hp, hpn⟩ := hn
      exact ⟨p, hp, by simp [hpn]⟩
    cases hf : d.find? (fun p => p.1 == n) with
    | none => rw [hf] at hsome; simp at hsome
    | some p => simp

/-- C3: appending a result record when the latest results file's header
differs from the record's schema (ordered identifying-key names followed by
metric names): (a) the file consulted and appended to is the one with the
largest numeric suffix, not the first in directory-scan order; (b) on a
header mismatch the record is written, with its header, to the new
uniquely-named file and every existing file of the partition — in particular
every row of the original latest file — is left unchanged; (c) on a header
match the record row is appended to that largest-suffix file. -/
theorem post_strategy_schema_rotation
    (d : Dir) (fresh : String) (keys metrics : List (String × String))
    (nums : List (String × Nat)) (fp : String) (rows : CsvFile)
    (hnums : fileNumbers (dirNames d) = some nums)
    (hfp : get_latest_results_file d = some fp)
    (hrows : lookupFile d fp = some rows)
    (hfresh : fresh ∉ dirNames d) :
    (∃ v, fileNumber fp = some v ∧ ∀ p ∈ nums, p.2 ≤ v) ∧
    (rows.headD [] ≠ schemaOf keys metrics →
      post_strategy true fresh d keys metrics =
        some (writeAppend d fresh [schemaOf keys metrics, recordRow keys metrics]) ∧
      (∀ n, n ∈ dirNames d →
        lookupFile (writeAppend d fresh [schemaOf keys metrics, recordRow keys metrics]) n =
          lookupFile d n) ∧
      lookupFile (writeAppend d fresh [schemaOf keys metrics, recordRow keys metrics]) fresh =
        some [schemaOf keys metrics, recordRow keys metrics]) ∧
    (rows.headD [] = schemaOf keys metrics →
      post_strategy true fresh d keys metrics =
        some (writeAppend d fp [recordRow keys metrics])) := by
  obtain ⟨hmap, hmem⟩ := fileNumbers_spec (dirNames d) nums hnums
  have hdne : d ≠ [] := by
    intro hd
    subst hd
    simp [lookupFile] at hrows
  have hnums_ne : nums ≠ [] := by
    intro hn
    subst hn
    simp at hmap
    cases d with
    | nil => exact hdne rfl
    | cons a t => simp [dirNames] at hmap
  obtain ⟨p, rest, hpr⟩ := List.exists_cons_of_ne_nil hnums_ne
  have hq : fp = (maxByValueAux p rest).1 := by
    rw [get_latest_results_file, hnums] at hfp
    rw [hpr] at hfp
    simp [maxByValue] at hfp
    exact hfp.symm
  have hqmem : maxByValueAux p rest ∈ nums := by
    rcases maxByValueAux_mem rest p with h | h
    · rw [hpr, h]; exact List.mem_cons_self _ _
    · rw [hpr]; exact List.mem_cons_of_mem _ h
  have hdempty : d.isEmpty = false := by
    cases d with
    | nil => exact absurd rfl hdne
    | cons a t => rfl
  refine ⟨⟨(maxByValueAux p rest).2, ?_, ?_⟩, ?_, ?_⟩
  · rw [hq]; exact hmem _ hqmem
  · intro x hx
    rw [hpr] at hx
    rcases List.mem_cons.mp hx with h | h
    · exact h ▸ (maxByValueAux_le rest p).1
    · exact (maxByValueAux_le rest p).2 x h
  · intro hmis
    have ht : rotateTarget fresh d (schemaOf keys metrics) fp = (fresh, true) := by
      unfold rotateTarget
      rw [hrows]
      simp only [if_neg hmis]
    have hres : post_strategy true fresh d keys metrics =
        some (writeAppend d fresh [schemaOf keys metrics, recordRow keys metrics]) := by
      have hps : post_strategy true fresh d keys metrics =
          (get_latest_results_file d).map (fun file_path =>
            writeAppend d (rotateTarget fresh d (schemaOf keys metrics) file_path).1
              ((if (rotateTarget fresh d (schemaOf keys metrics) file_path).2
                  then [schemaOf keys metrics] else []) ++ [recordRow keys metrics])) := rfl
      rw [hps, hfp]
      simp [ht]
    exact ⟨hres, (writeAppend_fresh d fresh _ hfresh).2,
      (writeAppend_fresh d fresh _ hfresh).1⟩
  · intro hmat
    have ht : rotateTarget fresh d (schemaOf keys metrics) fp = (fp, false) := by
      unfold rotateTarget
      rw [hrows]
      simp only [if_pos hmat, hdempty]
    have hps : post_strategy true fresh d keys metrics =
        (get_latest_results_file d).map (fun file_path =>
          writeAppend d (rotateTarget fresh d (schemaOf keys metrics) file_path).1
            ((if (rotateTarget fresh d (schemaOf keys metrics) file_path).2
                then [schemaOf keys metrics] else []) ++ [recordRow keys metrics])) := rfl
    rw [hps, hfp]
    simp [ht]

/-- The partition used to witness C3, listed out of numeric order: suffixes
1, 3, 2; the latest file (`results_3.csv`) has a wider schema. -/
def rotDir : Dir :=
  [("results_1.csv", [["squeeze_pro_length", "Total Trades"], ["10", "2"]]),
   ("results_3.csv",
     [["squeeze_pro_length", "atr_length", "Total Trades"], ["10", "5", "2"]]),
   ("results_2.csv", [["squeeze_pro_length", "Total Trades"], ["20", "3"]])]

/-- The parsed suffix table of `rotDir`. -/
def rotNums : List (String × Nat) :=
  [("results_1.csv", 1), ("results_3.csv", 3), ("results_2.csv", 2)]

/-- The identifying keys of the record being appended in the C3 witness. -/
def rotKeys : List (String × String) := [("squeeze_pro_length", "30")]

/-- The metrics of the record being appended in the C3 witness. -/
def rotMetrics : List (String × String) := [("Total Trades", "4")]

/-- Witness for C3: on `rotDir` the consulted file is `results_3.csv` (largest
suffix, second in scan order), the incoming schema mismatches its header, and
the append rotates to the fresh `results_4.csv`, leaving `results_3.csv`
unchanged. -/
theorem post_strategy_schema_rotation_witness :
    fileNumbers (dirNames rotDir) = some rotNums ∧
    get_latest_results_file rotDir = some "results_3.csv" ∧
    (∃ v, fileNumber "results_3.csv" = some v ∧ ∀ p ∈ rotNums, p.2 ≤ v) ∧
    post_strategy true "results_4.csv" rotDir rotKeys rotMetrics =
      some (writeAppend rotDir "results_4.csv"
        [schemaOf rotKeys rotMetrics, recordRow rotKeys rotMetrics]) ∧
    lookupFile (writeAppend rotDir "results_4.csv"
        [schemaOf rotKeys rotMetrics, recordRow rotKeys rotMetrics]) "results_3.csv" =
      lookupFile rotDir "results_3.csv" := by
  have h := post_strategy_schema_rotation rotDir "results_4.csv" rotKeys rotMetrics
    rotNums "results_3.csv"
    [["squeeze_pro_length", "atr_length", "Total Trades"], ["10", "5", "2"]]
    (by decide) (by decide) (by decide) (by decide)
  exact ⟨by decide, by decide, h.1, (h.2.1 (by decide)).1,
    (h.2.1 (by decide)).2.1 "results_3.csv" (by decide)⟩

/-- C2: a parameter combination whose identifying keys match a row of some
existing results file of the partition (with result saving enabled) is
recorded from the cache: `run_combination` returns the cached row, leaves the
store untouched and never invokes the backtest — uniformly in the backtest
function — so a second run against the same pre-populated cache returns the
identical result record, again without running a backtest.  The final
conjunct ties the hit hypothesis to the claim's wording: `pre_strategy`
succeeds exactly when some existing file contains a matching row. -/
theorem cache_hit_skips_backtest
    (backtest1 backtest2 : List (String × String) → List (String × String))
    (fresh1 fresh2 : String) (d : Dir) (keys row : List (String × String))
    (hhit : pre_strategy true d keys = some row) :
    run_combination backtest1 true fresh1 d keys = some (row, d, false) ∧
    run_combination backtest2 true fresh2 d keys = some (row, d, false) ∧
    ((pre_strategy true d keys).isSome ↔ ∃ p ∈ d, (fileHit p.2 keys).isSome) := by
  refine ⟨?_, ?_, ?_⟩
  · rw [run_combination, hhit]
  · rw [run_combination, hhit]
  · show (d.findSome? (fun p => fileHit p.2 keys)).isSome ↔ _
    exact findSome?_isSome_iff _ d

/-- The pre-populated partition used to witness C2. -/
def cacheDir : Dir :=
  [("results.csv",
    [["squeeze_pro_length", "frequency", "Total Trades", "Net PnL"],
     ["10", "0:05:00", "2", "-1.5"],
     ["20", "0:05:00", "3", "12.5"]])]

/-- The identifying keys looked up in the C2 witness. -/
def cacheKeys : List (String × String) :=
  [("squeeze_pro_length", "20"), ("frequency", "0:05:00")]

/-- The cached row the C2 witness lookup returns. -/
def cacheHitRow : List (String × String) :=
  [("squeeze_pro_length", "20"), ("frequency", "0:05:00"),
   ("Total Trades", "3"), ("Net PnL", "12.5")]

/-- Witness for C2: on `cacheDir` the combination `cacheKeys` hits the second
data row; both runs return it with the store unchanged and the backtest flag
false, for two different backtest functions. -/
theorem cache_hit_skips_backtest_witness :
    pre_strategy true cacheDir cacheKeys = some cacheHitRow ∧
    run_combination (fun _ => [("Total Trades", "99")]) true "results_1.csv"
      cacheDir cacheKeys = some (cacheHitRow, cacheDir, false) ∧
    run_combination (fun _ => []) true "results_7.csv"
      cacheDir cacheKeys = some (cacheHitRow, cacheDir, false) := by
  have h := cache_hit_skips_backtest (fun _ => [("Total Trades", "99")]) (fun _ => [])
    "results_1.csv" "results_7.csv" cacheDir cacheKeys cacheHitRow (by decide)
  exact ⟨by decide, h.1, h.2.1⟩

/-! ### The sweep loop and its failure behaviour (C4) -/

/-- The outcome of the work done for one parameter combination inside
`runstrategies`: the backtest completes with metrics; strategy construction
or `pre_strategy` raises `bt.errors.StrategySkipError` (the only exception
the dispatch loop catches, lines 350-351); or the run raises any other
exception. -/
inductive WorkerOutcome where
  | ok (metrics : List (String × String))
  | skip
  | err (msg : String)
  deriving DecidableEq

/-- Does the outcome model an exception other than `StrategySkipError`? -/
def WorkerOutcome.isErr : WorkerOutcome → Bool
  | .err _ => true
  | _ => false

/-- A parameter combination together with the behaviour of its backtest. -/
structure Combo where
  keys : List (String × String)
  outcome : WorkerOutcome
  deriving DecidableEq

/-- One element of the list `runstrategies` hands back to the pool loop
(`return runstrats + cached_strats`, line 465, with `optreturn=False` as
`driver.py` line 178 deploys): a cached row is a `pd.Series`, a completed
backtest is the finished strategy object — the pool loop tells them apart
with `isinstance(r[0], pd.Series)` (line 264). -/
inductive RunItem where
  | cachedRow (row : List (String × String))
  | finishedStrat (record : List (String × String))
  deriving DecidableEq

/-- The worker side of one combination, `runstrategies` (lines 341-351,
465), with the one strategy per combination that `driver.py`'s single
`optstrategy` produces: a cache hit puts the cached row into
`cached_strats`; `StrategySkipError` is caught (`continue`, lines 350-351)
and the combination contributes nothing, so the returned list is empty; a
completed backtest appends its record through `post_strategy` and returns
the finished strategy; any other exception — from the backtest, or from an
unparsable results-file name during the append — propagates out as
`Except.error`: nothing in `runstrategies` catches it. -/
def processCombo (save : Bool) (fresh : String) (d : Dir) (c : Combo) :
    Except String (List RunItem × Dir) :=
  match pre_strategy save d c.keys with
  | some row => .ok ([.cachedRow row], d)
  | none =>
    match c.outcome with
    | .skip => .ok ([], d)
    | .err msg => .error msg
    | .ok metrics =>
      match post_strategy save fresh d c.keys metrics with
      | some d2 => .ok ([.finishedStrat (c.keys ++ metrics)], d2)
      | none => .error "ValueError: invalid results file name"

/-- The pool loop of `run` (lines 259-277): combinations are dispatched in
order; for each returned list `r` the loop first evaluates `r[0]`
(line 264) — which raises `IndexError` on the empty list a skipped
combination returns — then routes a cached row into `cached_strats` and a
finished strategy into the callbacks, and only then advances the progress
counter (`progress.update(1)`, line 275). An exception escaping a
combination — from the worker, or the `r[0]` dispatch itself — propagates
and aborts the remainder of the sweep: there is no handler around the
loop. The result is the collected cached rows, the final store and the
number of progress updates. -/
def sweep (save : Bool) (fresh : String) (d : Dir) :
    List Combo → Except String (List (List (String × String)) × Dir × Nat)
  | [] => .ok ([], d, 0)
  | c :: rest =>
    match processCombo save fresh d c with
    | .error e => .error e
    | .ok (r, d2) =>
      match r with
      | [] => .error "IndexError: list index out of range"
      | item :: _ =>
        match sweep save fresh d2 rest with
        | .error e => .error e
        | .ok (rs, d3, n) =>
          .ok ((match item with
                | RunItem.cachedRow row => [row]
                | RunItem.finishedStrat _ => []) ++ rs, d3, n + 1)

/-- The partition directory has only parsable file names, so the suffix scan
of `get_latest_results_file` cannot raise. -/
def dirParses (d : Dir) : Bool := (fileNumbers (dirNames d)).isSome

theorem fileNumbers_isSome_append (names : List String) (n : String)
    (h1 : (fileNumbers names).isSome) (h2 : (fileNumber n).isSome) :
    (fileNumbers (names ++ [n])).isSome := by
  induction names with
  | nil =>
    obtain ⟨v, hv⟩ := Option.isSome_iff_exists.mp h2
    simp [fileNumbers, hv]
  | cons m rest ih =>
    cases hm : fileNumber m with
    | none => rw [fileNumbers, hm] at h1; simp at h1
    | some v =>
      cases hr : fileNumbers rest with
      | none => rw [fileNumbers, hm, hr] at h1; simp at h1
      | some ns =>
        have := ih (by rw [hr]; rfl)
        obtain ⟨ns2, hns2⟩ := Option.isSome_iff_exists.mp this
        show (fileNumbers (m :: (rest ++ [n]))).isSome
        rw [fileNumbers, hm, hns2]
        rfl

theorem get_latest_isSome (d : Dir) (h : dirParses d = true) :
    (get_latest_results_file d).isSome := by
  rw [dirParses] at h
  obtain ⟨nums, hnums⟩ := Option.isSome_iff_exists.mp h
  rw [get_latest_results_file, hnums]
  cases h2 : maxByValue nums <;> simp [h2]

theorem get_latest_cases (d : Dir) (fp : String)
    (h : get_latest_results_file d = some fp) :
    fp = "results.csv" ∨ fp ∈ dirNames d := by
  cases hnums : fileNumbers (dirNames d) with
  | none => rw [get_latest_results_file, hnums] at h; simp at h
  | some nums =>
    rw [get_latest_results_file, hnums] at h
    cases hn : nums with
    | nil => left; simp [hn, maxByValue] at h; exact h.symm
    | cons p rest =>
      right
      rw [hn] at h
      simp [maxByValue] at h
      have hmem : maxByValueAux p rest ∈ nums := by
        rcases maxByValueAux_mem rest p with hx | hx
        · rw [hn, hx]; exact List.mem_cons_self _ _
        · rw [hn]; exact List.mem_cons_of_mem _ hx
      obtain ⟨hmap, _⟩ := fileNumbers_spec (dirNames d) nums hnums
      rw [← h, ← hmap]
      exact List.mem_map_of_mem _ hmem

theorem fileNumber_isSome_of_mem (d : Dir) (n : String)
    (hd : dirParses d = true) (hn : n ∈ dirNames d) :
    (fileNumber n).isSome := by
  rw [dirParses] at hd
  obtain ⟨nums, hnums⟩ := Option.isSome_iff_exists.mp hd
  obtain ⟨hmap, hmem⟩ := fileNumbers_spec (dirNames d) nums hnums
  rw [← hmap] at hn
  obtain ⟨p, hp, hpn⟩ := List.mem_map.mp hn
  rw [← hpn, hmem p hp]
  rfl

theorem rotateTarget_fst (fresh : String) (d : Dir) (schema : List String)
    (fp : String) :
    (rotateTarget fresh d schema fp).1 = fp ∨
      (rotateTarget fresh d schema fp).1 = fresh := by
  unfold rotateTarget
  cases lookupFile d fp with
  | none => exact .inl rfl
  | some rows =>
    dsimp only
    by_cases hh : rows.headD [] = schema
    · rw [if_pos hh]; exact .inl rfl
    · rw [if_neg hh]; exact .inr rfl

theorem dirNames_writeAppend_mem (d : Dir) (name : String)
    (rows : List (List String)) (h : d.any (fun p => p.1 == name) = true) :
    dirNames (writeAppend d name rows) = dirNames d := by
  rw [writeAppend, if_pos h, dirNames, dirNames, List.map_map]
  apply List.map_congr_left
  intro p _
  by_cases hp : p.1 = name
  · simp [hp]
  · simp [hp]

theorem dirParses_writeAppend (d : Dir) (name : String)
    (rows : List (List String)) (hd : dirParses d = true)
    (hn : (fileNumber name).isSome) :
    dirParses (writeAppend d name rows) = true := by
  by_cases hmem : d.any (fun p => p.1 == name) = true
  · rw [dirParses, dirNames_writeAppend_mem d name rows hmem]
    exact hd
  · rw [dirParses, writeAppend, if_neg hmem, dirNames, List.map_append]
    exact fileNumbers_isSome_append _ _ hd hn

theorem post_strategy_total (save : Bool) (fresh : String) (d : Dir)
    (keys metrics : List (String × String))
    (hd : dirParses d = true) (hfr : (fileNumber fresh).isSome) :
    ∃ d2, post_strategy save fresh d keys metrics = some d2 ∧ dirParses d2 = true := by
  cases save with
  | false => exact ⟨d, rfl, hd⟩
  | true =>
    obtain ⟨fp, hfp⟩ := Option.isSome_iff_exists.mp (get_latest_isSome d hd)
    refine ⟨writeAppend d (rotateTarget fresh d (schemaOf keys metrics) fp).1
      ((if (rotateTarget fresh d (schemaOf keys metrics) fp).2
          then [schemaOf keys metrics] else []) ++ [recordRow keys metrics]), ?_, ?_⟩
    · show (get_latest_results_file d).map _ = _
      rw [hfp]
      rfl
    · apply dirParses_writeAppend _ _ _ hd
      rcases rotateTarget_fst fresh d (schemaOf keys metrics) fp with h | h
      · rw [h]
        rcases get_latest_cases d fp hfp with h2 | h2
        · rw [h2]; decide
        · exact fileNumber_isSome_of_mem d fp hd h2
      · rw [h]; exact hfr

/-- C4 amended: no exception survives the combination boundary in the
deployed pool path. A combination whose backtest raises anything other than
`bt.errors.StrategySkipError` propagates the exception out of
`runstrategies` and aborts the sweep with it. A `StrategySkipError` is
caught there (lines 350-351, `continue`), but the combination then hands the
empty list back to the pool loop, whose first dispatch `r[0]` (line 264)
raises `IndexError` before `progress.update(1)` — so a skipped combination
also aborts the sweep, without advancing the progress counter. Either way
the failing combination contributes no result row, nothing is cached for
it, and the remaining combinations are never processed. -/
theorem sweep_exception_aborts (save : Bool) (fresh : String) (d : Dir)
    (c : Combo) (rest : List Combo)
    (hpre : pre_strategy save d c.keys = none) :
    (c.outcome = .skip →
      sweep save fresh d (c :: rest) =
        .error "IndexError: list index out of range") ∧
    (∀ msg, c.outcome = .err msg →
      sweep save fresh d (c :: rest) = .error msg) := by
  constructor
  · intro hc
    unfold sweep processCombo
    rw [hpre, hc]
  · intro msg hc
    unfold sweep processCombo
    rw [hpre, hc]

/-- The three combinations of the C4 counterexample: the middle backtest
raises an uncaught exception. -/
def errCombos : List Combo :=
  [⟨[("squeeze_pro_length", "10")], .ok [("Total Trades", "1")]⟩,
   ⟨[("squeeze_pro_length", "20")], .err "ZeroDivisionError"⟩,
   ⟨[("squeeze_pro_length", "30")], .ok [("Total Trades", "3")]⟩]

/-- Counterexample to C4 as stated: a sweep over three combinations whose
second backtest raises does not run to completion — the exception is not
caught at the combination boundary, it propagates and aborts the whole sweep
(the third combination is never processed and no results survive). -/
theorem sweep_aborts_on_worker_error :
    sweep true "results_1.csv" [] errCombos = .error "ZeroDivisionError" := by
  rfl

/-- Witness for the amended C4: over an empty store, a skipped first
combination aborts the sweep with `IndexError` even though a healthy
combination is still queued behind it. -/
theorem sweep_exception_aborts_witness :
    pre_strategy true [] [("squeeze_pro_length", "10")] = none ∧
    sweep true "results_9.csv" []
      [⟨[("squeeze_pro_length", "10")], .skip⟩,
       ⟨[("squeeze_pro_length", "20")], .ok [("Total Trades", "2")]⟩] =
      .error "IndexError: list index out of range" :=
  ⟨by decide,
    (sweep_exception_aborts true "results_9.csv" []
      ⟨[("squeeze_pro_length", "10")], .skip⟩
      [⟨[("squeeze_pro_length", "20")], .ok [("Total Trades", "2")]⟩]
      (by decide)).1 rfl⟩

/-! ### The `TenXSqueeze` order/position state machine (C5, C6, C7)

The strategy callbacks `next`, `notify_order` and `notify_trade` are ported
statement by statement from `strategies/TenXSqueeze.py` and
`strategies/BaseStrategy.py`.  The broker that fills orders is backtrader's,
an external framework: it is modelled from the spec — transitions are
evaluated once per bar close and order fills are confirmed in the same step
(spec section 4.3), a trailing stop's level tracks the best price reached and
never loosens, and the fill of one OCO sibling voids the other within the
same notification step. -/

/-- The strategy parameters the state machine reads (`TenXSqueeze.params`);
the window lengths are consumed by the external indicators and do not appear.
`logging` gates the TradeRecord of `notify_trade` through
`cerebro.p.tradehistory` (TenXSqueeze line 53, BaseStrategy line 121). -/
structure StratParams where
  tp_trail_percent : Rat
  sl_trail_percent : Rat
  percent_is_atr : Bool
  tp_atr_multiplier : Rat
  max_trade_duration : Nat
  use_good_momentum : Bool
  logging : Bool
  deriving DecidableEq

/-- The default parameter values of `TenXSqueeze.params` (lines 12-23). -/
def defaultParams : StratParams :=
  { tp_trail_percent := mkRat 4 10, sl_trail_percent := mkRat 7 10,
    percent_is_atr := true, tp_atr_multiplier := mkRat 23 10,
    max_trade_duration := 9, use_good_momentum := true, logging := true }

/-- One bar of the data feed together with the per-bar values of the external
indicator lines the strategy reads (`sp.squeeze_status`, `good_momentum`,
`tenx.d_up`, `tenx.d_down`, `sp.momentum` at offsets 0 and -1, and the ATR):
indicator computation is an out-of-scope pure function, so its values enter
the state machine as inputs. -/
structure Bar where
  hi : Rat
  lo : Rat
  cl : Rat
  squeeze_status : Int
  good_momentum : Int
  d_up : Bool
  d_down : Bool
  momentum : Rat
  momentum_prev : Rat
  atr : Rat
  deriving DecidableEq

/-- An order side. -/
inductive Side where
  | buy
  | sell
  deriving DecidableEq

/-- The execution type of an order: a plain market order, or a
`bt.Order.StopTrail` carrying the percent passed to `trail_order`
(TenXSqueeze lines 55-60). -/
inductive OrderKind where
  | market
  | stopTrail (percent : Rat)
  deriving DecidableEq

/-- An order as the strategy and the spec-modelled broker see it. -/
structure Order where
  oid : Nat
  side : Side
  kind : OrderKind
  transmit : Bool
  parent : Option Nat
  oco : Option Nat
  isClose : Bool
  trailPrice : Option Rat
  deriving DecidableEq

/-- An entry record (`BaseStrategy.notify_order` lines 87-94); the list is
kept most-recent-first, so Python's `entries[-1]` is the head. -/
structure EntryRec where
  direction : Side
  filled_price : Rat
  bar_len : Nat
  deriving DecidableEq

/-- An exit record (`notify_order` lines 98-105), most recent first;
`direction` is the direction of the closed position. -/
structure ExitRec where
  direction : Side
  filled_price : Rat
  etype : String
  deriving DecidableEq

/-- A closed round-trip TradeRecord (`notify_trade` lines 120-136), most
recent first, restricted to the fields the claims are about:
`bar_duration` is backtrader's `trade.barlen`. -/
structure TradeRec where
  direction : Side
  bar_duration : Nat
  deriving DecidableEq

/-- The state of one `TenXSqueeze` instance together with the spec-modelled
broker.  `entry_order`, `tp_order`, `sl_order`, `in_position`, `entries`,
`exits`, `trades` are the strategy's own fields (`BaseStrategy.__init__`
lines 31-39); `barsSeen` is `len(self)`; `possize`/`posprice` are the broker
position (`position_line`); `tradeOpenBar` is the open bar of the broker's
trade object; `nextId` allocates order ids; `canceled`, `fills` (order id,
was-it-a-market-order) and `closerFills` (fills of closing orders in the
current round trip) are broker-side observation logs for the theorems. -/
structure SimState where
  barsSeen : Nat
  possize : Int
  posprice : Rat
  entry_order : Option Order
  tp_order : Option Order
  sl_order : Option Order
  in_position : Bool
  entries : List EntryRec
  exits : List ExitRec
  trades : List TradeRec
  tradeOpenBar : Nat
  nextId : Nat
  canceled : List Nat
  fills : List (Nat × Bool)
  closerFills : Nat
  deriving DecidableEq

/-- The state created by `BaseStrategy.__init__`. -/
def initState : SimState :=
  { barsSeen := 0, possize := 0, posprice := 0, entry_order := none,
    tp_order := none, sl_order := none, in_position := false, entries := [],
    exits := [], trades := [], tradeOpenBar := 0, nextId := 0, canceled := [],
    fills := [], closerFills := 0 }

/-- The trailing distance of a StopTrail at the current bar:
`trailamount = percent * self.atr` when `percent_is_atr` (the ATR line is
re-read every bar), else `trailpercent = percent` against the current price. -/
def trailDist (p : StratParams) (percent : Rat) (bar : Bar) : Rat :=
  if p.percent_is_atr then percent * bar.atr else percent * bar.cl

/-- Port of the Completed branch of `BaseStrategy.notify_order` (lines
85-110): an entry fill appends an entry record, sets `in_position` and clears
the entry slot; a fill of the order held in the tp (resp. sl) slot appends an
exit record tagged `tp` (resp. `sl`), clears `in_position` and that one slot
— and no other.  (The `TenXSqueeze.notify_order` override, lines 94-99, also
resets the external good-momentum indicator, which lives inside the bar
inputs here.) -/
def notifyCompleted (s : SimState) (o : Order) (price : Rat) : SimState :=
  if s.entry_order.any (fun e => e.oid == o.oid) then
    { s with
      entries := { direction := o.side, filled_price := price,
                   bar_len := s.barsSeen } :: s.entries,
      in_position := true, entry_order := none }
  else if s.tp_order.any (fun t => t.oid == o.oid) then
    { s with
      exits := { direction := if o.side == Side.buy then Side.sell else Side.buy,
                 filled_price := price, etype := "tp" } :: s.exits,
      in_position := false, tp_order := none }
  else if s.sl_order.any (fun t => t.oid == o.oid) then
    { s with
      exits := { direction := if o.side == Side.buy then Side.sell else Side.buy,
                 filled_price := price, etype := "sl" } :: s.exits,
      in_position := false, sl_order := none }
  else s

/-- Port of the Canceled/Margin/Rejected branch of `notify_order` (lines
112-118): clear whichever slot still holds the order, if any. -/
def notifyCanceled (s : SimState) (o : Order) : SimState :=
  if s.entry_order.any (fun e => e.oid == o.oid) then { s with entry_order := none }
  else if s.tp_order.any (fun t => t.oid == o.oid) then { s with tp_order := none }
  else if s.sl_order.any (fun t => t.oid == o.oid) then { s with sl_order := none }
  else s

/-- Port of `BaseStrategy.notify_trade` (lines 120-136): when the trade is
closed and `cerebro.p.tradehistory` (set to the `logging` parameter) holds, a
TradeRecord is appended; `bar_duration = trade.barlen` is the number of bars
between the opening and the closing fill. -/
def notifyTrade (p : StratParams) (s : SimState) (dir : Side) : SimState :=
  if p.logging then
    { s with trades := { direction := dir,
                         bar_duration := s.barsSeen - s.tradeOpenBar } :: s.trades }
  else s

/-- Modelled from the spec: the broker applies the fill of a closing order.
The position returns to zero, the fill and trade-closed notifications are
delivered, and the non-filled OCO sibling is voided — its cancel notification
arrives within the same notification step (spec section 4.3 and glossary:
OCO). -/
def closerFill (p : StratParams) (s0 : SimState) (o : Order) (price : Rat) :
    SimState :=
  let dir : Side := if s0.possize > 0 then Side.buy else Side.sell
  let s1 := { s0 with possize := 0,
                      fills := (o.oid, o.kind == OrderKind.market) :: s0.fills,
                      closerFills := s0.closerFills + 1 }
  let s2 := notifyCompleted s1 o price
  let s3 :=
    match o.oco with
    | some sid =>
      match s2.sl_order with
      | some so =>
        if so.oid == sid then
          notifyCanceled { s2 with canceled := so.oid :: s2.canceled } so
        else s2
      | none => s2
    | none =>
      match s2.tp_order with
      | some t =>
        if t.oco == some o.oid then
          notifyCanceled { s2 with canceled := t.oid :: s2.canceled } t
        else s2
      | none => s2
  notifyTrade p s3 dir

/-- Modelled from the spec: the broker fills a market entry order at the
close of the bar it was submitted on, opens the position, and activates the
linked child trailing stop atomically with the fill (spec section 4.3,
`Idle → PendingEntry`), initializing its trailing level one distance away
from the fill price. -/
def entryFill (p : StratParams) (s0 : SimState) (o : Order) (bar : Bar) :
    SimState :=
  let sz : Int := if o.side == Side.buy then 1 else -1
  let s1 := { s0 with possize := sz, posprice := bar.cl,
                      tradeOpenBar := s0.barsSeen, closerFills := 0,
                      fills := (o.oid, true) :: s0.fills }
  let s2 := notifyCompleted s1 o bar.cl
  match s2.sl_order with
  | some so =>
    match so.kind with
    | .stopTrail pct =>
      let lvl : Rat :=
        if so.side == Side.sell then bar.cl - trailDist p pct bar
        else bar.cl + trailDist p pct bar
      if so.parent == some o.oid then
        { s2 with sl_order := some { so with trailPrice := some lvl } }
      else s2
    | .market => s2
  | none => s2

/-- `self.entries[-1]["bar_len"]` (most-recent-first list).  The default for
an empty list keeps the function total; while in the market the list is never
empty. -/
def lastEntryBar (s : SimState) : Nat :=
  match s.entries with
  | e :: _ => e.bar_len
  | [] => s.barsSeen

/-- Lines 113-119 of `TenXSqueeze.next`: `self.buy/sell(transmit=False)` and
`self.trail_order(sell/buy, sl_trail_percent, parent=self.entry_order)` —
the entry is a market order held back (transmit=False) and the trailing stop
is its transmitted child, so both reach the broker together. -/
def submitEntry (p : StratParams) (s : SimState) (side : Side) : SimState :=
  let eo : Order := { oid := s.nextId, side := side, kind := .market,
                      transmit := false, parent := none, oco := none,
                      isClose := false, trailPrice := none }
  let so : Order := { oid := s.nextId + 1,
                      side := if side == Side.buy then Side.sell else Side.buy,
                      kind := .stopTrail p.sl_trail_percent, transmit := true,
                      parent := some eo.oid, oco := none, isClose := false,
                      trailPrice := none }
  { s with entry_order := some eo, sl_order := some so, nextId := s.nextId + 2 }

/-- Lines 126-127: `self.tp_order = self.trail_order(self.close,
tp_trail_percent, oco=self.sl_order)` — a trailing close order, OCO against
the stop-loss, active immediately with its level one distance from the
current close. -/
def tpOrderOf (p : StratParams) (bar : Bar) (s : SimState) : Order :=
  { oid := s.nextId, side := if s.possize > 0 then Side.sell else Side.buy,
    kind := .stopTrail p.tp_trail_percent, transmit := true,
    parent := none, oco := s.sl_order.map (·.oid), isClose := true,
    trailPrice := some
      (if (if s.possize > 0 then Side.sell else Side.buy) == Side.sell then
         bar.cl - trailDist p p.tp_trail_percent bar
       else bar.cl + trailDist p p.tp_trail_percent bar) }

/-- Registering the take-profit order in its slot. -/
def submitTp (p : StratParams) (bar : Bar) (s : SimState) : SimState :=
  { s with tp_order := some (tpOrderOf p bar s), nextId := s.nextId + 1 }

/-- Lines 130-132: `self.cancel(self.sl_order)`;
`self.sl_order = self.close()`.  The cancel notification is delivered after
the slot has been reassigned to the market close order, so the elif chain of
`notify_order` finds no slot holding the canceled stop (as in backtrader). -/
def closeOrderOf (s : SimState) : Order :=
  { oid := s.nextId, side := if s.possize > 0 then Side.sell else Side.buy,
    kind := .market, transmit := true, parent := none, oco := none,
    isClose := true, trailPrice := none }

/-- The slot reassignment and cancel notification of lines 130-132. -/
def durationClose (s : SimState) : SimState :=
  let oldSl := s.sl_order
  let s1 := { s with sl_order := some (closeOrderOf s), nextId := s.nextId + 1,
                     canceled := (match oldSl with
                                  | some so => so.oid :: s.canceled
                                  | none => s.canceled) }
  match oldSl with
  | some so => notifyCanceled s1 so
  | none => s1

/-- The state the max-duration branch leaves behind when the canceled stop is
no longer referenced by any slot: close order in the stop-loss slot, the old
stop's id recorded as canceled. -/
def durationState (s : SimState) (oldOid : Nat) : SimState :=
  { s with sl_order := some (closeOrderOf s), nextId := s.nextId + 1,
           canceled := oldOid :: s.canceled }

/-- Port of `TenXSqueeze.next` (lines 101-134), the once-per-bar decision
step.  A pending entry or take-profit order → return.  Flat: when the squeeze
status is released (0) and, if configured, the good-momentum gate is 1,
submit a long (short) entry when `d_up` (`d_down`) holds and momentum is
positive (negative) and strictly greater (smaller) than on the previous bar.
In the market: when the close crosses the ATR target in the position's
favour, submit the trailing take-profit OCO against the stop-loss; then, when
the bars elapsed since the last entry reach `max_trade_duration` and no
take-profit order is pending, cancel the stop-loss and submit an
unconditional close in its place. -/
def strategyNext (p : StratParams) (bar : Bar) (s : SimState) : SimState :=
  if s.entry_order.isSome || s.tp_order.isSome then s
  else if s.possize == 0 then
    if bar.squeeze_status == 0 && (!p.use_good_momentum || bar.good_momentum == 1) then
      if bar.d_up && decide (0 < bar.momentum) &&
          decide (bar.momentum_prev < bar.momentum) then
        submitEntry p s Side.buy
      else if bar.d_down && decide (bar.momentum < 0) &&
          decide (bar.momentum < bar.momentum_prev) then
        submitEntry p s Side.sell
      else s
    else s
  else
    let upper := s.posprice + p.tp_atr_multiplier * bar.atr
    let lower := s.posprice - p.tp_atr_multiplier * bar.atr
    let s1 :=
      if (decide (upper ≤ bar.cl) && decide (0 < s.possize)) ||
          (decide (bar.cl ≤ lower) && decide (s.possize < 0)) then
        submitTp p bar s
      else s
    if decide (p.max_trade_duration ≤ s1.barsSeen - lastEntryBar s1) &&
        s1.tp_order.isNone then
      durationClose s1
    else s1

/-- Modelled from the spec: the per-bar broker pass over the active trailing
stops, one order at a time.  Returns the fill price when the order triggers
against the bar, otherwise the order with its level ratcheted by the close —
never loosening (spec section 4.3 side effects). -/
def trailCheck (p : StratParams) (bar : Bar) (o : Order) : Option Rat × Order :=
  match o.kind, o.trailPrice with
  | .stopTrail pct, some tpr =>
    if o.side == Side.sell then
      if decide (bar.lo ≤ tpr) then (some tpr, o)
      else (none, { o with trailPrice := some (max tpr (bar.cl - trailDist p pct bar)) })
    else
      if decide (tpr ≤ bar.hi) then (some tpr, o)
      else (none, { o with trailPrice := some (min tpr (bar.cl + trailDist p pct bar)) })
  | _, _ => (none, o)

/-- Modelled from the spec: before the strategy step of each bar, the broker
examines the active closing orders in submission order (the stop-loss
precedes the take-profit); the first one to trigger fills, which voids its
OCO sibling; otherwise both trailing levels ratchet. -/
def brokerPhase (p : StratParams) (bar : Bar) (s : SimState) : SimState :=
  if s.possize == 0 then s
  else
    match s.sl_order with
    | some so =>
      match trailCheck p bar so with
      | (some price, _) => closerFill p s so price
      | (none, so2) =>
        let s1 := { s with sl_order := some so2 }
        match s1.tp_order with
        | some t =>
          match trailCheck p bar t with
          | (some price, _) => closerFill p s1 t price
          | (none, t2) => { s1 with tp_order := some t2 }
        | none => s1
    | none => s

/-- Modelled from the spec: market orders submitted during the bar's strategy
step execute at that bar's close — the entry order (opening the position and
arming its child stop) or the unconditional close sitting in the stop-loss
slot after the max-duration branch. -/
def fillPhase (p : StratParams) (bar : Bar) (s : SimState) : SimState :=
  match s.entry_order with
  | some eo =>
    match eo.kind with
    | .market => entryFill p s eo bar
    | .stopTrail _ => s
  | none =>
    match s.sl_order with
    | some so =>
      match so.kind with
      | .market => closerFill p s so bar.cl
      | .stopTrail _ => s
    | none => s

/-- One full simulated bar: the feed advances (`len(self)` grows), the broker
examines pending stop orders against the bar, the strategy's `next` runs at
the bar close, and market orders submitted during the step fill at that
close. -/
def barStep (p : StratParams) (bar : Bar) (s : SimState) : SimState :=
  fillPhase p bar
    (strategyNext p bar
      (brokerPhase p bar { s with barsSeen := s.barsSeen + 1 }))

/-- Run the state machine over a bar sequence. -/
def runBars (p : StratParams) (bars : List Bar) (s : SimState) : SimState :=
  bars.foldl (fun st b => barStep p b st) s

/-- Every state reached from `initState`, the initial state included. -/
def statesOf (p : StratParams) (bars : List Bar) : List SimState :=
  bars.scanl (fun st b => barStep p b st) initState

/-- C7: from a state with no open position and no pending entry or
take-profit order, `TenXSqueeze.next` triggers an entry exactly when the
squeeze status is released (0), the good-momentum gate passes (when
`use_good_momentum` is configured), the directional trend signal agrees, and
the momentum has the matching sign and is strictly larger in the trade
direction than on the previous bar; the triggered entry is a market order
held back (`transmit=False`) and the stop-loss submitted with it is a
trailing stop whose parent is the entry order, itself transmitted, so the
pair reaches the broker together and the stop activates atomically with the
fill. -/
theorem entry_trigger_iff (p : StratParams) (bar : Bar) (s : SimState)
    (hflat : s.possize = 0) (hent : s.entry_order = none) (htp : s.tp_order = none) :
    ((strategyNext p bar s).entry_order.isSome = true ↔
      (bar.squeeze_status = 0 ∧ (p.use_good_momentum = false ∨ bar.good_momentum = 1) ∧
        ((bar.d_up = true ∧ 0 < bar.momentum ∧ bar.momentum_prev < bar.momentum) ∨
         (bar.d_down = true ∧ bar.momentum < 0 ∧ bar.momentum < bar.momentum_prev)))) ∧
    (∀ eo, (strategyNext p bar s).entry_order = some eo →
      eo.kind = OrderKind.market ∧ eo.transmit = false ∧
      ∃ so, (strategyNext p bar s).sl_order = some so ∧
        so.parent = some eo.oid ∧ so.transmit = true ∧
        so.kind = OrderKind.stopTrail p.sl_trail_percent) := by
  have step : strategyNext p bar s =
      (if (bar.squeeze_status == 0 && (!p.use_good_momentum || bar.good_momentum == 1)) = true
       then
         if (bar.d_up && decide (0 < bar.momentum) &&
             decide (bar.momentum_prev < bar.momentum)) = true then
           submitEntry p s Side.buy
         else if (bar.d_down && decide (bar.momentum < 0) &&
             decide (bar.momentum < bar.momentum_prev)) = true then
           submitEntry p s Side.sell
         else s
       else s) := by
    unfold strategyNext
    rw [hent, htp, hflat]
    rfl
  rw [step]
  by_cases hg : (bar.squeeze_status == 0 &&
      (!p.use_good_momentum || bar.good_momentum == 1)) = true
  · rw [if_pos hg]
    simp only [Bool.and_eq_true, Bool.or_eq_true, Bool.not_eq_true',
      beq_iff_eq, decide_eq_true_eq] at hg
    by_cases hl : (bar.d_up && decide (0 < bar.momentum) &&
        decide (bar.momentum_prev < bar.momentum)) = true
    · rw [if_pos hl]
      simp only [Bool.and_eq_true, decide_eq_true_eq] at hl
      constructor
      · simp only [submitEntry, Option.isSome_some, true_iff]
        exact ⟨hg.1, hg.2, Or.inl ⟨hl.1.1, hl.1.2, hl.2⟩⟩
      · intro eo heo
        simp only [submitEntry, Option.some.injEq] at heo
        rw [← heo]
        exact ⟨rfl, rfl, _, rfl, rfl, rfl, rfl⟩
    · rw [if_neg hl]
      simp only [Bool.and_eq_true, decide_eq_true_eq, not_and] at hl
      by_cases hs : (bar.d_down && decide (bar.momentum < 0) &&
          decide (bar.momentum < bar.momentum_prev)) = true
      · rw [if_pos hs]
        simp only [Bool.and_eq_true, decide_eq_true_eq] at hs
        constructor
        · simp only [submitEntry, Option.isSome_some, true_iff]
          exact ⟨hg.1, hg.2, Or.inr ⟨hs.1.1, hs.1.2, hs.2⟩⟩
        · intro eo heo
          simp only [submitEntry, Option.some.injEq] at heo
          rw [← heo]
          exact ⟨rfl, rfl, _, rfl, rfl, rfl, rfl⟩
      · rw [if_neg hs]
        simp only [Bool.and_eq_true, decide_eq_true_eq, not_and] at hs
        constructor
        · rw [hent]
          simp only [Option.isSome_none, Bool.false_eq_true, false_iff]
          intro hr
          rcases hr.2.2 with hd | hd
          · exact hl ⟨hd.1, hd.2.1⟩ hd.2.2
          · exact hs ⟨hd.1, hd.2.1⟩ hd.2.2
        · intro eo heo
          rw [hent] at heo
          exact absurd heo (by simp)
  · rw [if_neg hg]
    simp only [Bool.and_eq_true, Bool.or_eq_true, Bool.not_eq_true',
      beq_iff_eq, not_and, decide_eq_true_eq] at hg
    constructor
    · rw [hent]
      simp only [Option.isSome_none, Bool.false_eq_true, false_iff]
      intro hr
      exact hg hr.1 hr.2.1
    · intro eo heo
      rw [hent] at heo
      exact absurd heo (by simp)

/-- Witness for C7 at a concrete idle state and an entry-triggering bar. -/
theorem entry_trigger_iff_witness :
    initState.possize = 0 ∧
    (strategyNext defaultParams
      { hi := 100, lo := 100, cl := 100, squeeze_status := 0, good_momentum := 1,
        d_up := true, d_down := false, momentum := 2, momentum_prev := 1, atr := 1 }
      initState).entry_order.isSome = true :=
  have h := entry_trigger_iff defaultParams
    { hi := 100, lo := 100, cl := 100, squeeze_status := 0, good_momentum := 1,
      d_up := true, d_down := false, momentum := 2, momentum_prev := 1, atr := 1 }
    initState rfl rfl rfl
  ⟨rfl, h.1.mpr (by with_unfolding_all decide)⟩

/-- The first bar of the C5 scenario: entry conditions hold (squeeze released,
good momentum, up trend, momentum rising) at a flat price of 100 with ATR 1. -/
def scenarioEntryBar : Bar :=
  { hi := 100, lo := 100, cl := 100, squeeze_status := 0, good_momentum := 1,
    d_up := true, d_down := false, momentum := 2, momentum_prev := 1, atr := 1 }

/-- The later bars of the C5 scenario: flat at 100 with ATR 1, so the ATR
target (102.3) is never touched and the trailing stop (99.3) never triggers. -/
def scenarioFlatBar : Bar :=
  { hi := 100, lo := 100, cl := 100, squeeze_status := 1, good_momentum := 0,
    d_up := false, d_down := false, momentum := 0, momentum_prev := 0, atr := 1 }

/-- The C5 synthetic run: one entry bar, then nine bars holding the position. -/
def scenarioBars : List Bar := scenarioEntryBar :: List.replicate 9 scenarioFlatBar

/-- C5.  General part: in a position, with no pending entry or take-profit
order, the ATR-target condition false on this bar, and the stop-loss slot
holding an order (with an id older than the allocator — true of every
reachable state), `TenXSqueeze.next` on the first bar where the elapsed bars
since the last entry reach `max_trade_duration` cancels the existing
stop-loss and submits an unconditional (market) closing order in its place,
and below the limit leaves the state untouched.  Concrete part: the
ParameterSet {max_trade_duration: 9, tp_atr_multiplier: 2.3,
sl_trail_percent: 0.7, percent_is_atr: true} (the defaults) run over the
9-bar synthetic position `scenarioBars` where the target is never touched
closes via the max-duration path: exactly one TradeRecord is produced, with
`bar_duration = 9`; the single exit is recorded from the stop-loss slot, the
original trailing stop (order 1) is canceled, every order ever filled was a
market order — so neither the ATR take-profit path nor the trailing stop
fired — and the position is flat. -/
theorem max_duration_close (p : StratParams) (bar : Bar) (s : SimState)
    (so : Order)
    (hpos : s.possize ≠ 0) (hent : s.entry_order = none) (htp : s.tp_order = none)
    (hsl : s.sl_order = some so) (hid : so.oid ≠ s.nextId)
    (hcross : ((decide (s.posprice + p.tp_atr_multiplier * bar.atr ≤ bar.cl) &&
        decide (0 < s.possize)) ||
      (decide (bar.cl ≤ s.posprice - p.tp_atr_multiplier * bar.atr) &&
        decide (s.possize < 0))) = false) :
    (p.max_trade_duration ≤ s.barsSeen - lastEntryBar s →
      ∃ co, (strategyNext p bar s).sl_order = some co ∧
        co.kind = OrderKind.market ∧ co.isClose = true ∧
        so.oid ∈ (strategyNext p bar s).canceled ∧
        (strategyNext p bar s).tp_order = none) ∧
    (s.barsSeen - lastEntryBar s < p.max_trade_duration →
      strategyNext p bar s = s) ∧
    ((runBars defaultParams scenarioBars initState).trades =
        [{ direction := Side.buy, bar_duration := 9 }] ∧
      (runBars defaultParams scenarioBars initState).exits.map (fun e => e.etype) =
        ["sl"] ∧
      (runBars defaultParams scenarioBars initState).fills.all (fun f => f.2) = true ∧
      (runBars defaultParams scenarioBars initState).canceled = [1] ∧
      (runBars defaultParams scenarioBars initState).possize = 0) := by
  have hne : (s.possize == 0) = false := by
    simp only [beq_eq_false_iff_ne, ne_eq]
    exact hpos
  have hstep : strategyNext p bar s =
      (if (decide (p.max_trade_duration ≤ s.barsSeen - lastEntryBar s) &&
          s.tp_order.isNone) = true then durationClose s else s) := by
    unfold strategyNext
    rw [hent, htp, hne]
    simp only [Option.isSome_none, Bool.or_self, Bool.false_eq_true, if_false,
      hcross, htp]
  refine ⟨?_, ?_, by with_unfolding_all decide⟩
  · intro hdur
    rw [hstep, if_pos (by simp [htp, hdur])]
    unfold durationClose
    rw [hsl]
    have hco : (s.nextId == so.oid) = false := by
      simp only [beq_eq_false_iff_ne, ne_eq]
      exact fun hh => hid hh.symm
    unfold notifyCanceled
    simp only [hent, htp, closeOrderOf, Option.any_none, Option.any_some,
      Bool.false_eq_true, if_false, hco]
    exact ⟨_, rfl, rfl, rfl, List.mem_cons_self _ _, trivial⟩
  · intro hlt
    rw [hstep, if_neg ?_]
    simp only [Bool.and_eq_true, decide_eq_true_eq, not_and]
    intro hdur
    exact absurd hdur (by omega)

/-- The stop-loss order of the C5 witness's in-market state (the state the
scenario reaches just before its final bar). -/
def wSl : Order :=
  { oid := 1, side := Side.sell, kind := .stopTrail (mkRat 7 10), transmit := true,
    parent := some 0, oco := none, isClose := false,
    trailPrice := some (mkRat 993 10) }

/-- The in-market state of the C5 witness: long since bar 1, at bar 10. -/
def wState : SimState :=
  { barsSeen := 10, possize := 1, posprice := 100, entry_order := none,
    tp_order := none, sl_order := some wSl, in_position := true,
    entries := [{ direction := Side.buy, filled_price := 100, bar_len := 1 }],
    exits := [], trades := [], tradeOpenBar := 1, nextId := 2, canceled := [],
    fills := [(0, true)], closerFills := 0 }

/-- Witness for C5 at the concrete in-market state `wState` on a flat bar:
nine bars have elapsed, so `next` cancels stop-loss 1 and submits the
market close. -/
theorem max_duration_close_witness :
    defaultParams.max_trade_duration ≤ wState.barsSeen - lastEntryBar wState ∧
    ∃ co, (strategyNext defaultParams scenarioFlatBar wState).sl_order = some co ∧
      co.kind = OrderKind.market ∧ co.isClose = true ∧
      wSl.oid ∈ (strategyNext defaultParams scenarioFlatBar wState).canceled ∧
      (strategyNext defaultParams scenarioFlatBar wState).tp_order = none :=
  have h := max_duration_close defaultParams scenarioFlatBar wState wSl
    (by decide) rfl rfl rfl (by decide) (by with_unfolding_all decide)
  ⟨by decide, h.1 (by decide)⟩

/-! ### The OCO invariant (C6) -/

/-- A flat inter-step state: no position, every order slot empty; at most one
closing order filled in the round trip just ended. -/
def FlatClean (s : SimState) : Prop :=
  s.possize = 0 ∧ s.entry_order = none ∧ s.tp_order = none ∧
  s.sl_order = none ∧ s.closerFills ≤ 1

/-- An in-market inter-step state: a position is open, no closing order has
filled yet in this round trip, the stop-loss slot is occupied by an order
with no OCO link of its own and an already-allocated id, and any take-profit
in its slot is OCO-linked to that stop-loss (with a distinct, allocated id). -/
def InMarket (s : SimState) : Prop :=
  s.possize ≠ 0 ∧ s.entry_order = none ∧ s.closerFills = 0 ∧
  ∃ so, s.sl_order = some so ∧ so.oco = none ∧ so.oid < s.nextId ∧
    ∀ t, s.tp_order = some t →
      t.oco = some so.oid ∧ t.oid ≠ so.oid ∧ t.oid < s.nextId

/-- The inductive invariant of the reachable inter-bar states. -/
def Inv (s : SimState) : Prop := FlatClean s ∨ InMarket s

theorem inv_init : Inv initState :=
  Or.inl ⟨rfl, rfl, rfl, rfl, by decide⟩

theorem trailCheck_preserve (p : StratParams) (bar : Bar) (o : Order) :
    (trailCheck p bar o).2.oid = o.oid ∧ (trailCheck p bar o).2.oco = o.oco := by
  unfold trailCheck
  cases o.kind <;> cases o.trailPrice <;> simp
  split_ifs <;> simp

/-- The fill of the order sitting in the stop-loss slot (the trailing stop,
or the max-duration market close) yields a flat state with both closing
slots empty and one more closing fill recorded. -/
theorem closerFill_sl_spec (p : StratParams) (s : SimState) (so : Order)
    (price : Rat)
    (hent : s.entry_order = none) (hsl : s.sl_order = some so)
    (hoco : so.oco = none)
    (htp : ∀ t, s.tp_order = some t → t.oco = some so.oid ∧ t.oid ≠ so.oid) :
    (closerFill p s so price).possize = 0 ∧
    (closerFill p s so price).entry_order = none ∧
    (closerFill p s so price).tp_order = none ∧
    (closerFill p s so price).sl_order = none ∧
    (closerFill p s so price).closerFills = s.closerFills + 1 ∧
    (closerFill p s so price).nextId = s.nextId := by
  unfold closerFill notifyCompleted notifyCanceled notifyTrade
  rw [hoco]
  cases htpo : s.tp_order with
  | none =>
    simp only [hent, hsl, htpo, Option.any_none, Option.any_some, beq_self_eq_true,
      Bool.false_eq_true, if_false, if_true]
    split_ifs <;> exact ⟨rfl, rfl, rfl, rfl, rfl, rfl⟩
  | some t =>
    obtain ⟨hl1, hl2⟩ := htp t htpo
    have hne : (t.oid == so.oid) = false := by
      simp only [beq_eq_false_iff_ne, ne_eq]; exact hl2
    simp only [hent, hsl, htpo, hne, hl1, Option.any_none, Option.any_some,
      beq_self_eq_true, Bool.false_eq_true, if_false, if_true]
    split_ifs <;> exact ⟨rfl, rfl, rfl, rfl, rfl, rfl⟩

/-- The fill of the take-profit yields a flat state: its own slot clears in
`notify_order` and the OCO-linked stop-loss is voided in the same
notification step. -/
theorem closerFill_tp_spec (p : StratParams) (s : SimState) (t so : Order)
    (price : Rat)
    (hent : s.entry_order = none) (htpo : s.tp_order = some t)
    (hsl : s.sl_order = some so)
    (hlink : t.oco = some so.oid) (hne : t.oid ≠ so.oid) :
    (closerFill p s t price).possize = 0 ∧
    (closerFill p s t price).entry_order = none ∧
    (closerFill p s t price).tp_order = none ∧
    (closerFill p s t price).sl_order = none ∧
    (closerFill p s t price).closerFills = s.closerFills + 1 ∧
    (closerFill p s t price).nextId = s.nextId := by
  unfold closerFill notifyCompleted notifyCanceled notifyTrade
  rw [hlink]
  have hne2 : (t.oid == so.oid) = false := by
    simp only [beq_eq_false_iff_ne, ne_eq]; exact hne
  simp only [hent, hsl, htpo, hne2, Option.any_none, Option.any_some,
    beq_self_eq_true, Bool.false_eq_true, if_false, if_true]
  split_ifs <;> exact ⟨rfl, rfl, rfl, rfl, rfl, rfl⟩

/-- `strategyNext` on a flat state with empty entry and take-profit slots is
the entry-decision tree of lines 108-119. -/
theorem strategyNext_flat (p : StratParams) (bar : Bar) (s : SimState)
    (hent : s.entry_order = none) (htp : s.tp_order = none)
    (hflat : s.possize = 0) :
    strategyNext p bar s =
      (if (bar.squeeze_status == 0 && (!p.use_good_momentum || bar.good_momentum == 1)) = true
       then
         if (bar.d_up && decide (0 < bar.momentum) &&
             decide (bar.momentum_prev < bar.momentum)) = true then
           submitEntry p s Side.buy
         else if (bar.d_down && decide (bar.momentum < 0) &&
             decide (bar.momentum < bar.momentum_prev)) = true then
           submitEntry p s Side.sell
         else s
       else s) := by
  unfold strategyNext
  rw [hent, htp, hflat]
  rfl

/-- `strategyNext` on an in-market state with an empty entry slot is the
exit-management block of lines 121-133. -/
theorem strategyNext_market (p : StratParams) (bar : Bar) (s : SimState)
    (hent : s.entry_order = none) (hpz : (s.possize == 0) = false) :
    strategyNext p bar s =
      (if s.tp_order.isSome = true then s
       else
         let s1 :=
           if ((decide (s.posprice + p.tp_atr_multiplier * bar.atr ≤ bar.cl) &&
                decide (0 < s.possize)) ||
               (decide (bar.cl ≤ s.posprice - p.tp_atr_multiplier * bar.atr) &&
                decide (s.possize < 0))) = true then
             submitTp p bar s
           else s
         if (decide (p.max_trade_duration ≤ s1.barsSeen - lastEntryBar s1) &&
             s1.tp_order.isNone) = true then
           durationClose s1
         else s1) := by
  unfold strategyNext
  rw [hent, hpz]
  rfl

/-- `fillPhase` does nothing when no order slot holds a market order. -/
theorem fillPhase_none (p : StratParams) (bar : Bar) (s : SimState)
    (hent : s.entry_order = none) (hsl : s.sl_order = none) :
    fillPhase p bar s = s := by
  unfold fillPhase
  rw [hent, hsl]

/-- `fillPhase` with an occupied stop-loss slot and empty entry slot: a
market order there (the max-duration close) fills at the bar close, a
trailing stop stays put. -/
theorem fillPhase_slSome (p : StratParams) (bar : Bar) (s : SimState)
    (so : Order) (hent : s.entry_order = none) (hsl : s.sl_order = some so) :
    fillPhase p bar s =
      (match so.kind with
       | OrderKind.market => closerFill p s so bar.cl
       | OrderKind.stopTrail _ => s) := by
  unfold fillPhase
  rw [hent, hsl]

/-- The submitted entry pair fills at the bar close into an in-market state:
position open, fresh round trip (no closing fill yet), the armed child stop
in the stop-loss slot, the take-profit slot still empty. -/
theorem entry_submit_fill_spec (p : StratParams) (bar : Bar) (s : SimState)
    (side : Side) (htp : s.tp_order = none) :
    InMarket (fillPhase p bar (submitEntry p s side)) := by
  have h1 : fillPhase p bar (submitEntry p s side) =
      entryFill p (submitEntry p s side)
        { oid := s.nextId, side := side, kind := .market, transmit := false,
          parent := none, oco := none, isClose := false, trailPrice := none } bar := rfl
  rw [h1]
  unfold entryFill notifyCompleted
  simp only [submitEntry, Option.any_some, Option.any_none, beq_self_eq_true,
    if_true, htp, Bool.false_eq_true, if_false]
  refine ⟨?_, rfl, rfl, _, rfl, rfl, Nat.lt_succ_self _, ?_⟩
  · cases side
    · show (1 : Int) ≠ 0
      decide
    · show (-1 : Int) ≠ 0
      decide
  · intro t2 ht2
    exact absurd ht2 (by simp)

/-- The entry decision followed by the same-bar fill preserves the
invariant. -/
theorem flat_tail_inv (p : StratParams) (bar : Bar) (s : SimState)
    (h : FlatClean s) : Inv (fillPhase p bar (strategyNext p bar s)) := by
  obtain ⟨hpz, hent, htp, hsl, hcf⟩ := h
  rw [strategyNext_flat p bar s hent htp hpz]
  by_cases hg : (bar.squeeze_status == 0 &&
      (!p.use_good_momentum || bar.good_momentum == 1)) = true
  · rw [if_pos hg]
    by_cases hl : (bar.d_up && decide (0 < bar.momentum) &&
        decide (bar.momentum_prev < bar.momentum)) = true
    · rw [if_pos hl]
      exact Or.inr (entry_submit_fill_spec p bar s Side.buy htp)
    · rw [if_neg hl]
      by_cases hs2 : (bar.d_down && decide (bar.momentum < 0) &&
          decide (bar.momentum < bar.momentum_prev)) = true
      · rw [if_pos hs2]
        exact Or.inr (entry_submit_fill_spec p bar s Side.sell htp)
      · rw [if_neg hs2, fillPhase_none p bar s hent hsl]
        exact Or.inl ⟨hpz, hent, htp, hsl, hcf⟩
  · rw [if_neg hg, fillPhase_none p bar s hent hsl]
    exact Or.inl ⟨hpz, hent, htp, hsl, hcf⟩

/-- The exit-management decision followed by the same-bar fill of any market
close keeps the invariant. -/
theorem market_tail_inv (p : StratParams) (bar : Bar) (s : SimState)
    (h : InMarket s) : Inv (fillPhase p bar (strategyNext p bar s)) := by
  obtain ⟨hpz, hent, hcf, so, hsl, hoco, hbound, hlink⟩ := h
  have hpzb : (s.possize == 0) = false := by
    simp only [beq_eq_false_iff_ne, ne_eq]; exact hpz
  rw [strategyNext_market p bar s hent hpzb]
  cases htpo : s.tp_order with
  | some t =>
    rw [if_pos (show (Option.some t).isSome = true from rfl),
      fillPhase_slSome p bar s so hent hsl]
    cases hk : so.kind with
    | market =>
      show Inv (closerFill p s so bar.cl)
      obtain ⟨c1, c2, c3, c4, c5, c6⟩ := closerFill_sl_spec p s so bar.cl hent hsl hoco
        (fun t2 ht2 => by
          rw [htpo] at ht2
          injection ht2 with hh
          rw [← hh]
          exact ⟨(hlink t htpo).1, (hlink t htpo).2.1⟩)
      exact Or.inl ⟨c1, c2, c3, c4, by omega⟩
    | stopTrail pct =>
      show Inv s
      exact Or.inr ⟨hpz, hent, hcf, so, hsl, hoco, hbound, hlink⟩
  | none =>
    rw [if_neg (by simp)]
    by_cases hatr : ((decide (s.posprice + p.tp_atr_multiplier * bar.atr ≤ bar.cl) &&
        decide (0 < s.possize)) ||
        (decide (bar.cl ≤ s.posprice - p.tp_atr_multiplier * bar.atr) &&
        decide (s.possize < 0))) = true
    · simp only [hatr, if_true]
      have htpq : ((submitTp p bar s).tp_order.isNone = false) := rfl
      rw [if_neg (by simp [htpq])]
      have he2 : (submitTp p bar s).entry_order = none := hent
      have hs2 : (submitTp p bar s).sl_order = some so := hsl
      rw [fillPhase_slSome p bar (submitTp p bar s) so he2 hs2]
      cases hk : so.kind with
      | market =>
        show Inv (closerFill p (submitTp p bar s) so bar.cl)
        have hlink2 : ∀ t2, (submitTp p bar s).tp_order = some t2 →
            t2.oco = some so.oid ∧ t2.oid ≠ so.oid := by
          intro t2 ht2
          have ht2b : some (tpOrderOf p bar s) = some t2 := ht2
          injection ht2b with hh
          rw [← hh]
          constructor
          · show s.sl_order.map (fun o => o.oid) = some so.oid
            rw [hsl]
            rfl
          · show ¬ s.nextId = so.oid
            intro hh2
            omega
        obtain ⟨c1, c2, c3, c4, c5, c6⟩ := closerFill_sl_spec p (submitTp p bar s) so
          bar.cl he2 hs2 hoco hlink2
        refine Or.inl ⟨c1, c2, c3, c4, ?_⟩
        have hc7 : (submitTp p bar s).closerFills = s.closerFills := rfl
        omega
      | stopTrail pct =>
        show Inv (submitTp p bar s)
        refine Or.inr ⟨hpz, hent, ?_, so, hs2, hoco, ?_, ?_⟩
        · exact hcf
        · show so.oid < s.nextId + 1
          omega
        · intro t2 ht2
          have ht2b : some (tpOrderOf p bar s) = some t2 := ht2
          injection ht2b with hh
          rw [← hh]
          refine ⟨?_, ?_, ?_⟩
          · show s.sl_order.map (fun o => o.oid) = some so.oid
            rw [hsl]
            rfl
          · show ¬ s.nextId = so.oid
            intro hh2
            omega
          · show s.nextId < s.nextId + 1
            omega
    · simp only [hatr, Bool.false_eq_true, if_false]
      by_cases hdur : (decide (p.max_trade_duration ≤ s.barsSeen - lastEntryBar s) &&
          s.tp_order.isNone) = true
      · rw [if_pos hdur]
        have hco : ((closeOrderOf s).oid == so.oid) = false := by
          simp only [closeOrderOf, beq_eq_false_iff_ne, ne_eq]
          intro hh
          omega
        have hdc : durationClose s = durationState s so.oid := by
          unfold durationClose notifyCanceled durationState
          rw [hsl]
          simp only [hent, htpo, Option.any_none, Bool.false_eq_true, if_false,
            Option.any_some, hco]
        rw [hdc, fillPhase_slSome p bar (durationState s so.oid) (closeOrderOf s)
          hent rfl]
        show Inv (closerFill p (durationState s so.oid) (closeOrderOf s) bar.cl)
        obtain ⟨c1, c2, c3, c4, c5, c6⟩ := closerFill_sl_spec p
          (durationState s so.oid) (closeOrderOf s) bar.cl hent rfl rfl
          (fun t2 ht2 =>
            absurd (show s.tp_order = some t2 from ht2) (by rw [htpo]; simp))
        refine Or.inl ⟨c1, c2, c3, c4, ?_⟩
        have hcr : (durationState s so.oid).closerFills = 0 := hcf
        omega
      · rw [if_neg hdur, fillPhase_slSome p bar s so hent hsl]
        cases hk : so.kind with
        | market =>
          show Inv (closerFill p s so bar.cl)
          obtain ⟨c1, c2, c3, c4, c5, c6⟩ := closerFill_sl_spec p s so bar.cl hent hsl hoco
            (fun t2 ht2 => by rw [htpo] at ht2; exact absurd ht2 (by simp))
          exact Or.inl ⟨c1, c2, c3, c4, by omega⟩
        | stopTrail pct =>
          show Inv s
          exact Or.inr ⟨hpz, hent, hcf, so, hsl, hoco, hbound, hlink⟩

/-- The per-bar broker pass preserves the invariant: a triggered stop or
take-profit closes the trade cleanly (through `closerFill_sl_spec` /
`closerFill_tp_spec`), otherwise the trailing levels ratchet in place. -/
theorem broker_phase_inv (p : StratParams) (bar : Bar) (s : SimState)
    (h : Inv s) : Inv (brokerPhase p bar s) := by
  rcases h with hf | hm
  · unfold brokerPhase
    rw [show (s.possize == 0) = true from by simp [hf.1]]
    simp only [if_pos rfl]
    exact Or.inl hf
  · obtain ⟨hpz, hent, hcf, so, hsl, hoco, hbound, hlink⟩ := hm
    unfold brokerPhase
    rw [show (s.possize == 0) = false from by
      simp only [beq_eq_false_iff_ne, ne_eq]; exact hpz, hsl]
    simp only [Bool.false_eq_true, if_false]
    obtain ⟨hpid, hpoco⟩ := trailCheck_preserve p bar so
    cases htc : trailCheck p bar so with
    | mk pr so2 =>
      rw [htc] at hpid hpoco
      cases pr with
      | some price =>
        dsimp only
        obtain ⟨c1, c2, c3, c4, c5, c6⟩ := closerFill_sl_spec p s so price hent hsl hoco
          (fun t2 ht2 => ⟨(hlink t2 ht2).1, (hlink t2 ht2).2.1⟩)
        exact Or.inl ⟨c1, c2, c3, c4, by omega⟩
      | none =>
        dsimp only
        cases htpo : s.tp_order with
        | none =>
          dsimp only
          refine Or.inr ⟨hpz, hent, hcf, so2, rfl, ?_, ?_, ?_⟩
          · rw [hpoco]; exact hoco
          · rw [hpid]; exact hbound
          · intro t2 ht2
            exact absurd (show (none : Option Order) = some t2 from ht2)
              (by simp)
        | some t =>
          dsimp only
          obtain ⟨htl1, htl2, htl3⟩ := hlink t htpo
          obtain ⟨htid, htoco⟩ := trailCheck_preserve p bar t
          cases htc2 : trailCheck p bar t with
          | mk pr2 t2 =>
            rw [htc2] at htid htoco
            cases pr2 with
            | some price2 =>
              dsimp only
              obtain ⟨c1, c2, c3, c4, c5, c6⟩ := closerFill_tp_spec p
                { s with tp_order := some t, sl_order := some so2 } t so2 price2
                hent rfl rfl
                (by rw [htl1, hpid]) (by rw [hpid]; exact htl2)
              exact Or.inl ⟨c1, c2, c3, c4, by
                have hc7 : ({ s with tp_order := some t, sl_order := some so2 } :
                  SimState).closerFills = s.closerFills := rfl
                omega⟩
            | none =>
              dsimp only
              refine Or.inr ⟨hpz, hent, hcf, so2, rfl, ?_, ?_, ?_⟩
              · rw [hpoco]; exact hoco
              · rw [hpid]; exact hbound
              · intro t3 ht3
                have ht3' : some t2 = some t3 := ht3
                injection ht3' with ht3e
                rw [← ht3e]
                exact ⟨by rw [htoco, htl1, hpid], by rw [htid, hpid]; exact htl2,
                  by rw [htid]; exact htl3⟩

/-- One full bar preserves the invariant. -/
theorem inv_barStep (p : StratParams) (bar : Bar) (s : SimState) (h : Inv s) :
    Inv (barStep p bar s) := by
  unfold barStep
  have h1 : Inv { s with barsSeen := s.barsSeen + 1 } := by
    rcases h with ⟨a, b, c, d, e⟩ | ⟨a, b, c, so, d, e, f, g⟩
    · exact Or.inl ⟨a, b, c, d, e⟩
    · exact Or.inr ⟨a, b, c, so, d, e, f, g⟩
  have h2 := broker_phase_inv p bar _ h1
  rcases h2 with hf | hm
  · exact flat_tail_inv p bar _ hf
  · exact market_tail_inv p bar _ hm

theorem scanl_invariant {α β : Type} (f : β → α → β) (P : β → Prop)
    (hstep : ∀ b a, P b → P (f b a)) :
    ∀ (l : List α) (init : β), P init → ∀ s ∈ List.scanl f init l, P s := by
  intro l
  induction l with
  | nil =>
    intro init h s hs
    simp only [List.scanl, List.mem_singleton] at hs
    rwa [hs]
  | cons a t ih =>
    intro init h s hs
    rw [List.scanl] at hs
    rcases List.mem_cons.mp hs with rfl | hs2
    · exact h
    · exact ih (f init a) (hstep init a h) s hs2

/-- C6: over every bar sequence, in every reachable state of the
`TenXSqueeze` run, at most one closing order (stop-loss slot or take-profit
slot) has filled in the current round-trip trade — `closerFills`, which the
broker bumps at each closing fill and resets at each entry fill, never
exceeds one — and whenever the position is flat both the take-profit and the
stop-loss order slots are empty: when one of the OCO pair fills, the sibling
is voided and its slot cleared within the same notification step, so no
state ever shows a flat position with a closing order still in a slot. -/
theorem oco_mutual_exclusion (p : StratParams) (bars : List Bar) :
    ∀ s ∈ statesOf p bars,
      s.closerFills ≤ 1 ∧
      (s.possize = 0 → s.tp_order = none ∧ s.sl_order = none) := by
  intro s hs
  have hInv : Inv s :=
    scanl_invariant (fun st b => barStep p b st) Inv
      (fun st b hst => inv_barStep p b st hst) bars initState inv_init s hs
  rcases hInv with ⟨hpz, _, htp, hsl, hcf⟩ | ⟨hpz, _, hcf, _⟩
  · exact ⟨hcf, fun _ => ⟨htp, hsl⟩⟩
  · exact ⟨by omega, fun hz => absurd hz hpz⟩

/-- Witness for C6 at the degenerate run over no bars: the initial state. -/
theorem oco_mutual_exclusion_witness :
    initState ∈ statesOf defaultParams [] ∧
    initState.closerFills ≤ 1 ∧
    (initState.possize = 0 → initState.tp_order = none ∧ initState.sl_order = none) :=
  ⟨List.mem_singleton.mpr rfl,
    oco_mutual_exclusion defaultParams [] initState (List.mem_singleton.mpr rfl)⟩

/-! ### C8 — MTFB3: ordering of signal evaluation and order submission

`MTFB3.next` (MTFB3.py lines 181-191) loops over the tickers; for each one it
runs the status-dependent state transition and, for tickers in a build state,
`build_position` (lines 125-153), which submits orders. The embedding records
the externally visible actions of one `next` call as an event trace. Prices
of already-submitted stop/limit orders are mutated in place by
`update_sl_tp_prices` without submitting anything, so that call contributes
no event. -/

/-- Port of `TickerStatus` (MTFB3.py lines 26-31). -/
inductive TickerStatus where
  | Neutral
  | BuildLong
  | BuildShort
  | HoldLong
  | HoldShort
  deriving DecidableEq

/-- Per-ticker view of the strategy state and of the current bar's signals:
`status` and `position` from `self.ticker_status` / `self.ticker_position`,
`hasSl` / `hasTp` for whether `self.sl_orders[ticker]` /
`self.tp_orders[ticker]` hold a live order, `sig` the 5m `Big3` signal
history (`sig.getD k 0` stands for `signal_5m[-k]`), and the current-bar
channel levels and high/low read by `build_position` and
`price_target_reached`. -/
structure MTicker where
  name : String
  status : TickerStatus
  position : Int
  hasSl : Bool
  hasTp : Bool
  sig : List Rat
  in_kc : Bool
  hi : Rat
  lo : Rat
  mkc_l : Rat
  mkc_u : Rat
  lkc_u : Rat
  lkc_l : Rat
  deriving DecidableEq

/-- Backtrader ago-indexing into the 5m signal line: `signal_5m[-k]`. -/
def sigAt (t : MTicker) (k : Nat) : Rat := t.sig.getD k 0

/-- Port of `above_0` (MTFB3.py line 22). -/
def above_0 (x : Rat) : Bool := decide (0 < x)

/-- Port of `below_0` (MTFB3.py line 18). -/
def below_0 (x : Rat) : Bool := decide (x < 0)

/-- Port of `signal_condition` inside `neutral_state_transition` (lines
86-87): the test holds on the last `n` consecutive 5m signal values. -/
def signal_condition (t : MTicker) (test : Rat → Bool) (n : Nat) : Bool :=
  (List.range n).all (fun k => test (sigAt t k))

/-- Port of `MTFB3.neutral_state_transition` (lines 82-93). -/
def neutral_state_transition (t : MTicker) : MTicker :=
  if signal_condition t above_0 6 then { t with status := .BuildLong }
  else if signal_condition t below_0 6 then { t with status := .BuildShort }
  else t

/-- Port of `MTFB3.price_target_reached` (lines 165-179). -/
def price_target_reached (t : MTicker) : Bool :=
  match t.status with
  | .BuildLong => decide (t.lkc_u ≤ t.hi) || decide (t.lo ≤ t.mkc_l)
  | .BuildShort => decide (t.lo ≤ t.lkc_l) || decide (t.mkc_u ≤ t.hi)
  | _ => false

/-- Port of `signal_break_condition` inside `build_state_transition` (lines
103-104): the test held `w` bars ago and the signal has been flat since. -/
def signal_break_condition (t : MTicker) (test : Rat → Bool) (w : Nat) : Bool :=
  test (sigAt t w) && (List.range w).all (fun k => sigAt t k == 0)

/-- Port of `MTFB3.build_state_transition` (lines 95-123). -/
def build_state_transition (t : MTicker) : MTicker :=
  let has_position := t.position != 0
  if !has_position && t.status == .BuildLong
      && (signal_break_condition t above_0 3 || price_target_reached t) then
    { t with status := .Neutral }
  else if !has_position && t.status == .BuildShort
      && (signal_break_condition t below_0 3 || price_target_reached t) then
    { t with status := .Neutral }
  else if has_position && t.status == .BuildLong
      && signal_break_condition t above_0 3 then
    { t with status := .HoldLong }
  else if has_position && t.status == .BuildShort
      && signal_break_condition t below_0 3 then
    { t with status := .HoldShort }
  else t

/-- One externally visible action of a single `MTFB3.next` call: evaluating a
ticker's signals and running its state transition, or submitting one order
for it. -/
inductive MEvent where
  | sigEval (ticker : String)
  | orderSubmit (ticker : String)
  deriving DecidableEq

/-- Port of `MTFB3.build_position` (lines 125-153): inside the Keltner
channel, a build-state ticker with a free stop or take-profit slot submits an
entry plus a linked stop and limit order (three submissions); with both slots
occupied it submits a bare entry and grows the existing orders in place. -/
def build_position (t : MTicker) : MTicker × List MEvent :=
  match t.status with
  | .BuildLong | .BuildShort =>
    if t.in_kc then
      if !t.hasSl || !t.hasTp then
        ({ t with hasSl := true, hasTp := true },
         [.orderSubmit t.name, .orderSubmit t.name, .orderSubmit t.name])
      else
        (t, [.orderSubmit t.name])
    else (t, [])
  | _ => (t, [])

/-- The loop body of `MTFB3.next` (lines 182-191) for one ticker: the
neutral branch only transitions, the build branches transition and then
immediately submit through `build_position`, the hold branches only refresh
stop/limit prices. -/
def stepTicker (t : MTicker) : MTicker × List MEvent :=
  match t.status with
  | .Neutral => (neutral_state_transition t, [.sigEval t.name])
  | .BuildLong | .BuildShort =>
    let t1 := build_state_transition t
    let r := build_position t1
    (r.1, .sigEval t.name :: r.2)
  | .HoldLong | .HoldShort => (t, [.sigEval t.name])

/-- Port of `MTFB3.next` (lines 181-191): the tickers are processed strictly
in sequence, each one's events appended in order. -/
def mtfb3_next : List MTicker → List MTicker × List MEvent
  | [] => ([], [])
  | t :: rest =>
    let r := stepTicker t
    let rr := mtfb3_next rest
    (r.1 :: rr.1, r.2 ++ rr.2)

/-- No evaluation event occurs in the trace. -/
def noEvalIn : List MEvent → Bool
  | [] => true
  | MEvent.sigEval _ :: _ => false
  | MEvent.orderSubmit _ :: rest => noEvalIn rest

/-- Modelled from the spec: the claimed bar-level ordering — every signal
evaluation of the bar happens before any order submission of the bar, i.e.
no evaluation event follows a submission event. -/
def evalsBeforeSubmits : List MEvent → Bool
  | [] => true
  | MEvent.sigEval _ :: rest => evalsBeforeSubmits rest
  | MEvent.orderSubmit _ :: rest => noEvalIn rest

/-- A build-state ticker inside the channel whose signal has neither broken
nor reached its price target: `next` keeps it in build state and submits its
three-order bracket. -/
def mkBuildTicker (nm : String) : MTicker :=
  { name := nm, status := .BuildLong, position := 0, hasSl := false,
    hasTp := false, sig := [1, 1, 1, 1, 1, 1], in_kc := true,
    hi := 10, lo := 9, mkc_l := 8, mkc_u := 11, lkc_u := 12, lkc_l := 7 }

/-- Name membership in the list of already-evaluated tickers. -/
def containsName : List String → String → Bool
  | [], _ => false
  | x :: xs, n => x == n || containsName xs n

/-- Each submission is for a ticker already evaluated earlier in the trace
(`seen` carries the names evaluated so far). -/
def ownEvalFirstB : List MEvent → List String → Bool
  | [], _ => true
  | MEvent.sigEval n :: rest, seen => ownEvalFirstB rest (n :: seen)
  | MEvent.orderSubmit n :: rest, seen => containsName seen n && ownEvalFirstB rest seen

theorem build_state_transition_name (t : MTicker) :
    (build_state_transition t).name = t.name := by
  unfold build_state_transition
  dsimp only
  split_ifs <;> rfl

theorem build_position_events (t : MTicker) :
    ∃ k, (build_position t).2 = List.replicate k (MEvent.orderSubmit t.name) := by
  unfold build_position
  cases t.status <;> dsimp only
  case BuildLong =>
    split_ifs <;> first
      | exact ⟨3, rfl⟩
      | exact ⟨1, rfl⟩
      | exact ⟨0, rfl⟩
  case BuildShort =>
    split_ifs <;> first
      | exact ⟨3, rfl⟩
      | exact ⟨1, rfl⟩
      | exact ⟨0, rfl⟩
  all_goals exact ⟨0, rfl⟩

/-- One loop iteration of `MTFB3.next` always opens with the ticker's own
evaluation, followed only by that same ticker's submissions. -/
theorem stepTicker_shape (t : MTicker) :
    ∃ k, (stepTicker t).2 =
      MEvent.sigEval t.name :: List.replicate k (MEvent.orderSubmit t.name) := by
  unfold stepTicker
  cases t.status with
  | Neutral => exact ⟨0, rfl⟩
  | HoldLong => exact ⟨0, rfl⟩
  | HoldShort => exact ⟨0, rfl⟩
  | BuildLong =>
    obtain ⟨k, hk⟩ := build_position_events (build_state_transition t)
    rw [build_state_transition_name] at hk
    exact ⟨k, by dsimp only; rw [hk]⟩
  | BuildShort =>
    obtain ⟨k, hk⟩ := build_position_events (build_state_transition t)
    rw [build_state_transition_name] at hk
    exact ⟨k, by dsimp only; rw [hk]⟩

theorem mtfb3_next_cons (t : MTicker) (rest : List MTicker) :
    (mtfb3_next (t :: rest)).2 = (stepTicker t).2 ++ (mtfb3_next rest).2 := rfl

theorem ownEvalFirstB_replicate (n : String) (seen : List String)
    (hn : containsName seen n = true) (evs2 : List MEvent)
    (h2 : ownEvalFirstB evs2 seen = true) :
    ∀ k, ownEvalFirstB (List.replicate k (MEvent.orderSubmit n) ++ evs2) seen = true := by
  intro k
  induction k with
  | zero => simpa using h2
  | succ m ih =>
    rw [List.replicate_succ, List.cons_append]
    show (containsName seen n && ownEvalFirstB
      (List.replicate m (MEvent.orderSubmit n) ++ evs2) seen) = true
    rw [hn, ih]
    rfl

theorem mtfb3_own_eval_first_aux (ts : List MTicker) :
    ∀ seen, ownEvalFirstB (mtfb3_next ts).2 seen = true := by
  induction ts with
  | nil => intro seen; rfl
  | cons t rest ih =>
    intro seen
    obtain ⟨k, hk⟩ := stepTicker_shape t
    rw [mtfb3_next_cons, hk, List.cons_append]
    show ownEvalFirstB
      (List.replicate k (MEvent.orderSubmit t.name) ++ (mtfb3_next rest).2)
      (t.name :: seen) = true
    exact ownEvalFirstB_replicate t.name (t.name :: seen)
      (by simp [containsName]) _ (ih (t.name :: seen)) k

/-- C8: the claimed ordering fails — `MTFB3.next` does not finish every
ticker's signal evaluation before submitting orders. With two tickers both
in `BuildLong` inside the channel and with free order slots, the loop
submits the first ticker's three-order bracket before it ever evaluates the
second ticker, so a submission event precedes an evaluation event in the
bar's trace. -/
theorem mtfb3_submit_before_later_eval :
    evalsBeforeSubmits
      (mtfb3_next [mkBuildTicker "AAA", mkBuildTicker "BBB"]).2 = false := by
  decide

/-- C8 (amended): the ordering that does hold is per ticker — in the trace
of one `MTFB3.next` call, every order submission for a ticker is preceded by
that same ticker's signal evaluation and state transition, for every ticker
list. -/
theorem mtfb3_own_eval_first (ts : List MTicker) :
    ownEvalFirstB (mtfb3_next ts).2 [] = true :=
  mtfb3_own_eval_first_aux ts []

end TenX
